import Mathlib

/-!
Shallow embedding of the lexical-store and table-reconstruction core of
`src/wiktionary_parser.py` and `src/language_parser.py`, together with
theorems settling the specification claims about it.

Conventions of the embedding:
* Python `dict`s become association lists (`alookup` / `aset`), with
  assignment overwriting in place and `setdefault` appending at the end —
  the observable lookup semantics of a Python dict.
* Python's uncaught exceptions (`AttributeError`, `KeyError` escaping)
  become `Option` results (`none` = the call raises).
* `unicodize` / `deunicodize` are the identity on our `String`s.
* The `ordered_set` module is not part of `src/`; its operations are
  modelled from the spec (an append-ordered set that deduplicates while
  preserving first-seen order).
-/

set_option synthInstance.maxSize 1024

namespace Wikt

/-! ### Python string primitives used by the source -/

/-- Python `s[-n:]`: the last `n` characters of `s` (all of `s` when
`n = 0`, since Python's `s[-0:]` is `s[0:]`, and when `n` exceeds the
length). -/
def pySuffix (s : String) (n : Nat) : String :=
  if n = 0 then s else ⟨s.data.drop (s.data.length - n)⟩

/-- Python `str.lower` (ASCII letters; sufficient for the inputs considered here). -/
def pyLower (s : String) : String := ⟨s.data.map Char.toLower⟩

/-- One step of Python `str.title`: an alphabetic character is uppercased
when the previous character was not alphabetic and lowercased otherwise. -/
def titleChar (prevAlpha : Bool) (c : Char) : Char :=
  if c.isAlpha then (if prevAlpha then c.toLower else c.toUpper) else c

def titleGo : Bool → List Char → List Char
  | _, [] => []
  | prevAlpha, c :: cs => titleChar prevAlpha c :: titleGo c.isAlpha cs

/-- Python `str.title` (ASCII letters). -/
def pyTitle (s : String) : String := ⟨titleGo false s.data⟩

def splitCharsGo (p : Char → Bool) : List Char → List (List Char)
  | [] => [[]]
  | c :: rest =>
      match splitCharsGo p rest with
      | [] => [[]]
      | g :: gs => if p c then [] :: g :: gs else (c :: g) :: gs

/-- Python `re.split` with a single-character-class pattern: cut the string
at every delimiter character, keeping empty pieces (so splitting "," on
the comma class gives two empty strings, as in Python). -/
def pySplit (p : Char → Bool) (s : String) : List String :=
  (splitCharsGo p s.data).map (fun l => ⟨l⟩)

/-- Python `str.strip()` with no argument: remove leading and trailing
whitespace. -/
def pyStrip (s : String) : String :=
  ⟨((s.data.dropWhile Char.isWhitespace).reverse.dropWhile Char.isWhitespace).reverse⟩

/-- Python `str.replace(" ", "_")`: the pattern is a single character, so
this is a character map. -/
def pyUnderscore (s : String) : String :=
  ⟨s.data.map (fun c => if c = ' ' then '_' else c)⟩

/-- Membership in Python's `string.punctuation`
(codepoints 33–47, 58–64, 91–96, 123–126). -/
def pyIsPunct (c : Char) : Bool :=
  (33 ≤ c.toNat && c.toNat ≤ 47) || (58 ≤ c.toNat && c.toNat ≤ 64) ||
    (91 ≤ c.toNat && c.toNat ≤ 96) || (123 ≤ c.toNat && c.toNat ≤ 126)

/-- `WiktionaryParser.contains_punct`: whether any character of
`string.punctuation` occurs in the word. -/
def contains_punct (word : String) : Bool := word.data.any pyIsPunct

/-! ### OrderedSet (modelled from the spec)

The source imports `OrderedSet` from an `ordered_set` module that is not
under `src/`.  Modelled from the spec: "an append-ordered set abstraction
used throughout to merge lists while removing duplicates and preserving
first-seen order".  `osAdd` is `OrderedSet.add`, `osUpdate` is
`OrderedSet.update`, `osItems l` is `OrderedSet(l).items()` (and
`.order_items()`, both yielding the deduplicated items in first-seen
order). -/

def osAdd {α : Type} [DecidableEq α] (m : List α) (x : α) : List α :=
  if x ∈ m then m else m ++ [x]

def osUpdate {α : Type} [DecidableEq α] (m : List α) (l : List α) : List α :=
  l.foldl osAdd m

def osItems {α : Type} [DecidableEq α] (l : List α) : List α := osUpdate [] l

/-! ### Association lists (the observable behaviour of Python dicts) -/

/-- `d.get(k)` / `d[k]` on a Python dict. -/
def alookup {κ β : Type} [DecidableEq κ] (l : List (κ × β)) (k : κ) : Option β :=
  (l.find? (fun p => p.1 = k)).map (·.2)

/-- `d[k] = v` on a Python dict: overwrite in place, or append if absent
(`setdefault` followed by assignment has the same net effect). -/
def aset {κ β : Type} [DecidableEq κ] (l : List (κ × β)) (k : κ) (v : β) : List (κ × β) :=
  match l with
  | [] => [(k, v)]
  | p :: t => if p.1 = k then (k, v) :: t else p :: aset t k v

/-! ### The lexical store (`WiktionaryParser.wiktionary_entries`)

`word → language → heading → content`; the content type is a parameter
because different headings hold differently shaped content. -/

abbrev Entry (α : Type) := List (String × α)

abbrev Store (α : Type) := List (String × List (String × Entry α))

/-- `self.wiktionary_entries[word][language]`, or `None` on `KeyError`
(`lookup_wiktionary_subentry(word, language)`). -/
def lookupLang {α : Type} (s : Store α) (word lang : String) : Option (Entry α) :=
  (alookup s word).bind (fun e => alookup e lang)

/-- `self.wiktionary_entries[word][language][heading]`, or `None` on `KeyError`
(`lookup_wiktionary_subentry(word, language, heading)`). -/
def lookup3 {α : Type} (s : Store α) (word lang heading : String) : Option α :=
  (lookupLang s word lang).bind (fun e => alookup e heading)

/-- `WiktionaryParser.entry_word`: try `word`, `word.lower()`, `word.title()`
in that order and return the first variant that has an entry under the
language; return `word` itself when none does. -/
def entry_word {α : Type} (s : Store α) (word lang : String) : String :=
  let nuwords := [word, pyLower word, pyTitle word]
  match nuwords.find? (fun w => (lookupLang s w lang).isSome) with
  | some w => w
  | none => word

/-- Overwrite the language entry for a `(word, language)` pair that is
already present in the store. -/
def storeSet {α : Type} (s : Store α) (word lang : String) (entry : Entry α) : Store α :=
  aset s word (aset ((alookup s word).getD []) lang entry)

/-- `WiktionaryParser.edit_wiktionary_entry`.  The source looks up
`wiktionary_entries[word][language]`, `setdefault`s the heading to `[]`,
and replaces the heading's content with `OrderedSet(old + content).items()`.
When the `(word, language)` pair is absent, `lookup_wiktionary_subentry`
returns `None` and the subsequent `entry.setdefault` raises an uncaught
`AttributeError` — modelled as `none` (the store is unchanged at that
point, nothing having been mutated yet). -/
def edit_wiktionary_entry {β : Type} [DecidableEq β] (s : Store (List β))
    (word lang heading : String) (content : List β) : Option (Store (List β)) :=
  match lookupLang s word lang with
  | none => none
  | some entry =>
      let old := (alookup entry heading).getD []
      some (storeSet s word lang (aset entry heading (osItems (old ++ content))))

/-! ### C3: the lemma cascade (`LanguageParser.word_lemmas`) -/

/-- Heading content for the lemma-cascade claims: part-of-speech headings
hold (definition-text, optional-lemma) pairs; the remaining headings
(Etymology, Pronunciation, and Declension in its `simple=True` stored form)
hold lists of strings. -/
inductive Content where
  | pairs : List (String × Option String) → Content
  | strs : List String → Content
deriving DecidableEq

/-- `WiktionaryParser.find_wiktionary_entry`.  When the entry is memoized it
is returned; otherwise the source fetches the page over the network, which
is outside this core (spec §6) — the claims below are about stores where
the entry is present, so the fetch path yields `none` here. -/
def find_wiktionary_entry {α : Type} (s : Store α) (word lang : String) : Option (Entry α) :=
  lookupLang s word lang

/-- `WiktionaryParser.find_wiktionary_subentry` with word, language and
heading all given: punctuation-bearing words yield nothing; otherwise an
exact heading lookup, then the first stored heading having `heading` as a
prefix (`section[:len(heading)] == heading`). -/
def find_wiktionary_subentry {α : Type} (s : Store α) (word lang heading : String) : Option α :=
  if contains_punct word then none
  else
    match find_wiktionary_entry s word lang with
    | none => none
    | some entry =>
        match alookup entry heading with
        | some c => some c
        | none => (entry.find? (fun p => p.1.take heading.length = heading)).map (·.2)

/-- `LanguageParser.lookup_word_inflections`. -/
def lookup_word_inflections (s : Store Content) (word lang : String) : Option Content :=
  lookup3 s word lang "Declension"

/-- `LanguageParser.find_word_inflections`. -/
def find_word_inflections (s : Store Content) (word lang : String) : Option Content :=
  find_wiktionary_subentry s word lang "Declension"

/-- The stem words contributed by one heading's content:
`[pos_entry[1] for pos_entry in pos_entries[1:] if pos_entry[1] is not None]`
(only part-of-speech headings, which hold pairs, are ever consulted). -/
def content_stems : Content → List String
  | .pairs ps => (ps.drop 1).filterMap (fun p => p.2)
  | .strs _ => []

/-- `WiktionaryParser.find_stemwords` (returns `None` — here `none` — when
the word has no entry in the language). -/
def find_stemwords (s : Store Content) (lang : String) (poses : List String) (word : String) :
    Option (List String) :=
  match find_wiktionary_entry s word lang with
  | none => none
  | some entry =>
      some (entry.foldl (fun acc p => if p.1 ∈ poses then acc ++ content_stems p.2 else acc) [])

/-- The head word contributed by one heading's content: `pos_entry[0][0]`,
the FIRST element of the first pair — the definition text (the
`IndexError` guard skips an empty pair list; the `is not None` check never
fires because the first component is always a string). -/
def content_heads : Content → List String
  | .pairs [] => []
  | .pairs (p :: _) => [p.1]
  | .strs _ => []

/-- `WiktionaryParser.find_headwords` (with no entry for the word the
source would raise `TypeError` iterating `None`; in-scope inputs always
have the entry). -/
def find_headwords (s : Store Content) (lang : String) (poses : List String) (word : String) :
    List String :=
  match find_wiktionary_entry s word lang with
  | none => []
  | some entry =>
      entry.foldl (fun acc p => if p.1 ∈ poses then acc ++ content_heads p.2 else acc) []

/-- `LanguageParser.word_lemmas`.  `verify` is `verify_word` — the
alphabet/lexicon language-membership check, whose tables come from the
excluded language-metadata collaborator (spec §6) — passed as an oracle.
`poses` is the allowed part-of-speech set.  The source rebinds
`word = entry_word(word, language)`; here the rebinding is inlined. -/
def word_lemmas (s : Store Content) (lang : String) (verify : String → Bool)
    (poses : List String) (word : String) : List String :=
  if word = "" then []
  else
    match lookup_word_inflections s (entry_word s word lang) lang with
    | some _ => (osItems [entry_word s word lang]).filter verify
    | none =>
        match find_word_inflections s (entry_word s word lang) lang with
        | some _ => (osItems [entry_word s word lang]).filter verify
        | none =>
            let stemwords := (find_stemwords s lang poses (entry_word s word lang)).getD []
            let lemmas := osUpdate [] stemwords
            let lemmas' := if lemmas.length = 0
              then osUpdate lemmas (find_headwords s lang poses (entry_word s word lang))
              else lemmas
            lemmas'.filter verify

/-- The stem-word collection exactly as the claim words it: over the
allowed part-of-speech headings present in the entry, the second element
of every definition pair except the first, when non-null. -/
def claim_stemwords (entry : Entry Content) (poses : List String) : List String :=
  entry.foldl (fun acc p => if p.1 ∈ poses then acc ++ content_stems p.2 else acc) []

/-- Head words as the claim words them: "the first pair's paired lemma" —
the SECOND element of the first definition pair, when non-null. -/
def claim_headwords (entry : Entry Content) (poses : List String) : List String :=
  entry.foldl (fun acc p =>
    if p.1 ∈ poses then
      acc ++ (match p.2 with
        | .pairs (q :: _) => q.2.toList
        | _ => [])
    else acc) []

/-- The no-declension cascade result exactly as the claim describes it:
deduplicated stem words when any exist, else deduplicated head words (read
as the first pair's paired lemma), filtered by the membership check. -/
def claim_c3_result (entry : Entry Content) (poses : List String) (verify : String → Bool) :
    List String :=
  let stems := claim_stemwords entry poses
  (if stems.length = 0 then osItems (claim_headwords entry poses) else osItems stems).filter
    verify

/-! ### C4: morpheme decomposition (`LanguageParser.all_word_morphemes`)

The loop pops a frontier token, skips it when empty / already visited /
punctuation-bearing, otherwise records it and pushes its direct etymology
list.  Termination is the Python argument made explicit: every token in
play lives in the finite universe `word :: storeStrings s`, the visited
list grows strictly on every recording step, and the frontier shrinks on
every skipping step.  The support facts below are Prop-valued `def`s
because the recursion itself consumes them. -/

/-- `LanguageParser.lookup_word_etymology`. -/
def lookup_word_etymology (s : Store (List String)) (lang word : String) :
    Option (List String) :=
  lookup3 s word lang "Etymology"

/-- `LanguageParser.word_morphemes`. -/
def word_morphemes (s : Store (List String)) (lang word : String) : Option (List String) :=
  lookup_word_etymology s lang (entry_word s word lang)

/-- Every string appearing in any stored content list — a finite superset
of everything `word_morphemes` can return. -/
def storeStrings (s : Store (List String)) : List String :=
  s.flatMap (fun p => p.2.flatMap (fun q => q.2.flatMap (fun r => r.2)))

def alookup_mem {κ β : Type} [DecidableEq κ] {l : List (κ × β)} {k : κ} {v : β}
    (h : alookup l k = some v) : ∃ p, p ∈ l ∧ p.2 = v := by
  unfold alookup at h
  cases hf : l.find? (fun p => p.1 = k) with
  | none => rw [hf] at h; cases h
  | some p =>
      rw [hf] at h
      injection h with h2
      exact ⟨p, List.mem_of_find?_eq_some hf, h2⟩

def lookupLang_some {α : Type} {s : Store α} {w l : String} {e : Entry α}
    (h : lookupLang s w l = some e) :
    ∃ langs, alookup s w = some langs ∧ alookup langs l = some e := by
  unfold lookupLang at h
  cases hw : alookup s w with
  | none => rw [hw] at h; cases h
  | some langs =>
      rw [hw] at h
      exact ⟨langs, rfl, h⟩

def lookup3_strings_sub {s : Store (List String)} {w l h : String} {c : List String}
    (hc : lookup3 s w l h = some c) : ∀ x ∈ c, x ∈ storeStrings s := by
  intro x hx
  unfold lookup3 at hc
  cases hL : lookupLang s w l with
  | none => rw [hL] at hc; cases hc
  | some e =>
      rw [hL] at hc
      have hc' : alookup e h = some c := hc
      obtain ⟨p, hp, hpv⟩ := alookup_mem hc'
      obtain ⟨langs, hw, hl⟩ := lookupLang_some hL
      obtain ⟨pw, hpw, hpwv⟩ := alookup_mem hw
      obtain ⟨pl, hpl, hplv⟩ := alookup_mem hl
      unfold storeStrings
      rw [List.mem_flatMap]
      refine ⟨pw, hpw, ?_⟩
      rw [List.mem_flatMap, hpwv]
      refine ⟨pl, hpl, ?_⟩
      rw [List.mem_flatMap, hplv]
      exact ⟨p, hp, hpv ▸ hx⟩

def word_morphemes_sub (s : Store (List String)) (lang w : String) (c : List String)
    (h : word_morphemes s lang w = some c) : ∀ x ∈ c, x ∈ storeStrings s :=
  lookup3_strings_sub h

/-- The number of universe elements not yet visited — the strictly
decreasing part of the termination measure. -/
def missing (U m : List String) : Nat := (U.filter (fun x => decide (x ∉ m))).length

def missing_le (U m m' : List String) (hsub : ∀ x, x ∈ m → x ∈ m') :
    missing U m' ≤ missing U m := by
  induction U with
  | nil => exact Nat.le_refl 0
  | cons u t ih =>
      unfold missing
      rw [List.filter_cons, List.filter_cons]
      by_cases hu' : u ∈ m'
      · rw [show decide (u ∉ m') = false by simp [hu']]
        by_cases hu : u ∈ m
        · rw [show decide (u ∉ m) = false by simp [hu]]
          exact ih
        · rw [show decide (u ∉ m) = true by simp [hu]]
          exact Nat.le_succ_of_le ih
      · have hu : u ∉ m := fun hm => hu' (hsub u hm)
        rw [show decide (u ∉ m') = true by simp [hu'],
          show decide (u ∉ m) = true by simp [hu]]
        exact Nat.succ_le_succ ih

def missing_lt (U m m' : List String) (hsub : ∀ x, x ∈ m → x ∈ m')
    (a : String) (haU : a ∈ U) (ham' : a ∈ m') (ham : a ∉ m) :
    missing U m' < missing U m := by
  induction U with
  | nil => cases haU
  | cons u t ih =>
      unfold missing
      rw [List.filter_cons, List.filter_cons]
      rcases List.mem_cons.mp haU with rfl | hat
      · rw [show decide (a ∉ m') = false by simp [ham'],
          show decide (a ∉ m) = true by simp [ham]]
        exact Nat.lt_succ_of_le (missing_le t m m' hsub)
      · by_cases hu' : u ∈ m'
        · rw [show decide (u ∉ m') = false by simp [hu']]
          by_cases hu : u ∈ m
          · rw [show decide (u ∉ m) = false by simp [hu]]
            exact ih hat
          · rw [show decide (u ∉ m) = true by simp [hu]]
            exact Nat.lt_succ_of_lt (ih hat)
        · have hu : u ∉ m := fun hm => hu' (hsub u hm)
          rw [show decide (u ∉ m') = true by simp [hu'],
            show decide (u ∉ m) = true by simp [hu]]
          exact Nat.succ_lt_succ (ih hat)

def mem_osAdd_left {α : Type} [DecidableEq α] {m : List α} {x : α} (y : α) (h : x ∈ m) :
    x ∈ osAdd m y := by
  unfold osAdd
  split
  · exact h
  · exact List.mem_append_left _ h

def mem_osAdd_self {α : Type} [DecidableEq α] (m : List α) (y : α) : y ∈ osAdd m y := by
  unfold osAdd
  split
  · assumption
  · exact List.mem_append_right _ (List.mem_cons_self y [])

def mem_osUpdate_left {α : Type} [DecidableEq α] (l : List α) {m : List α} {x : α}
    (h : x ∈ m) : x ∈ osUpdate m l := by
  induction l generalizing m with
  | nil => exact h
  | cons a t ih => exact ih (mem_osAdd_left a h)

/-- The worklist loop of `all_word_morphemes` (the `while len(todo) != 0`
body).  `todo.pop()` on a Python set removes an unspecified element; the
embedding pops the head of a list, one admissible schedule.  The `None`
check on `word_morphemes` is `Option.isSome`, and its list is read off
with `Option.getD` (equal to the matched list whenever the check
succeeds). -/
def awmLoop (s : Store (List String)) (lang : String) (U : List String)
    (hU : ∀ w x, x ∈ (word_morphemes s lang w).getD [] → x ∈ U)
    (morphemes todo : List String)
    (htodo : ∀ w ∈ todo, w ∈ U) : List String :=
  match todo with
  | [] => morphemes
  | curr :: rest =>
      if hc : curr ≠ "" ∧ curr ∉ morphemes ∧ contains_punct curr = false then
        if (word_morphemes s lang curr).isSome then
          awmLoop s lang U hU
            (osUpdate (osAdd morphemes curr) ((word_morphemes s lang curr).getD []))
            (rest ++ (word_morphemes s lang curr).getD [])
            (fun w hmem => (List.mem_append.mp hmem).elim
              (fun h1 => htodo w (List.mem_cons_of_mem curr h1))
              (fun h2 => hU curr w h2))
        else
          awmLoop s lang U hU (osAdd morphemes curr) rest
            (fun w hmem => htodo w (List.mem_cons_of_mem curr hmem))
      else
        awmLoop s lang U hU morphemes rest
          (fun w hmem => htodo w (List.mem_cons_of_mem curr hmem))
termination_by (missing U morphemes, todo.length)
decreasing_by
  · exact Prod.Lex.left _ _
      (missing_lt U morphemes
        (osUpdate (osAdd morphemes curr) ((word_morphemes s lang curr).getD []))
        (fun x hx => mem_osUpdate_left _ (mem_osAdd_left curr hx))
        curr (htodo curr (List.mem_cons_self curr rest))
        (mem_osUpdate_left _ (mem_osAdd_self morphemes curr)) hc.2.1)
  · exact Prod.Lex.left _ _
      (missing_lt U morphemes (osAdd morphemes curr)
        (fun x hx => mem_osAdd_left curr hx)
        curr (htodo curr (List.mem_cons_self curr rest))
        (mem_osAdd_self morphemes curr) hc.2.1)
  · exact Prod.Lex.right _ (by simp)

/-- `LanguageParser.all_word_morphemes`: frontier seeded with the word;
returns `morphemes.order_items()` (modelled from the spec as the items in
first-seen order, which is the accumulated list itself). -/
def all_word_morphemes (s : Store (List String)) (lang word : String) : List String :=
  awmLoop s lang (word :: storeStrings s)
    (fun w x hx => by
      cases hwm : word_morphemes s lang w with
      | none =>
          rw [hwm] at hx
          exact absurd hx (List.not_mem_nil x)
      | some c =>
          rw [hwm] at hx
          exact List.mem_cons_of_mem _ (word_morphemes_sub s lang w c hwm x hx))
    [] [word]
    (fun w hmem => by
      rw [List.mem_singleton.mp hmem]
      exact List.mem_cons_self _ _)

/-! ### The table model (`WiktionaryTable`)

A `Cell` is the read-only view of a `<td>`/`<th>` markup node that the
grid code inspects: its tag name, `rowspan`/`colspan`/`text` attributes,
its first `<a>` link (`none` = no link, `some none` = a link without
`href`, `some (some h)` = a link with `href = h`), its inner `<span>`
elements, its raw visible text (`getText()`), its cleaned text
(`tag_text`, used when the cell has no spans), and the two flags
`valid_content` inspects.  `cid` stands in for Python object identity, so
that "the same cell reference" is expressible.  The markup-tree parser
itself is an excluded collaborator (spec §1/§6): the table enters the
reconstruction as an ordered list of rows of cells, the exact input shape
of `parse_table` after `table_rows`/`table_cells`. -/

structure Span where
  text : String
  link : Option (Option String)
deriving DecidableEq

structure Cell where
  name : String
  rowspanAttr : Option Nat
  colspanAttr : Option Nat
  textAttr : Option String
  link : Option (Option String)
  spans : List Span
  fullText : String
  cleanText : String
  firstSup : Bool
  hasP : Bool
  cid : Nat
deriving DecidableEq

structure Table where
  language : String
  rows : List (List Cell)
deriving DecidableEq

/-- `self.num_rows = len(self.rows)`. -/
def num_rows (t : Table) : Nat := t.rows.length

/-- `WiktionaryTable.cell_rowspan`: the `rowspan` attribute, defaulting to 1. -/
def cell_rowspan (c : Cell) : Nat := c.rowspanAttr.getD 1

/-- `WiktionaryTable.cell_colspan`: the `colspan` attribute, defaulting to 1. -/
def cell_colspan (c : Cell) : Nat := c.colspanAttr.getD 1

/-- `WiktionaryTable.count_cols`: the col-spans of the first row's cells
summed (0 for a rowless table). -/
def count_cols (t : Table) : Nat :=
  match t.rows with
  | [] => 0
  | row :: _ => (row.map cell_colspan).sum

/-- `WiktionaryTable.is_header`: a `th`/`td` with no link is a header; with
a link carrying an `href`, a header iff the `href` neither ends in the
language name nor in "redlink=1"; a link without `href` falls through to
`False`. -/
def is_header (lang : String) (cell : Cell) : Bool :=
  if cell.name = "th" ∨ cell.name = "td" then
    match cell.link with
    | none => true
    | some (some href) => (pySuffix href lang.length != lang) && (pySuffix href 9 != "redlink=1")
    | some none => false
  else false

/-- `WiktionaryTable.is_cell_empty`: `getText()` never returns `None` (an
empty cell gives `""`, which the source does NOT treat as empty), so only
the em-dash placeholder check remains. -/
def is_cell_empty (cell : Cell) : Bool := cell.fullText == "—"

/-- `WiktionaryTable.valid_content`: not the em-dash placeholder, first
content item not a superscript, no paragraph inside. -/
def valid_content (cell : Cell) : Bool :=
  !is_cell_empty cell && !cell.firstSup && !cell.hasP

/-- The shared body of `contains_content`: the node's first link exists,
has an `href`, and that `href` ends in the language name. -/
def link_in_language (lang : String) (link : Option (Option String)) : Bool :=
  match link with
  | some (some href) => pySuffix href lang.length == lang
  | _ => false

/-- `WiktionaryTable.contains_content` on a cell. -/
def contains_content (lang : String) (cell : Cell) : Bool := link_in_language lang cell.link

/-- `WiktionaryTable.contains_content` on a span. -/
def span_contains_content (lang : String) (sp : Span) : Bool := link_in_language lang sp.link

/-- `WiktionaryTable.is_content`: `td` → `valid_content`, `th` →
`contains_content`. -/
def is_content (lang : String) (cell : Cell) : Bool :=
  if cell.name = "td" then valid_content cell
  else if cell.name = "th" then contains_content lang cell
  else false

/-- `WiktionaryTable.is_col_empty`: row-span at least the table's row count
AND `col.get("text") is None` — the "text" ATTRIBUTE (virtually never
present in HTML), not the cell's text content. -/
def is_col_empty (nR : Nat) (col : Cell) : Bool :=
  decide (nR ≤ cell_rowspan col) && col.textAttr.isNone

/-- `WiktionaryTable.content_text`: newline-join the texts of the spans
whose link targets the language. -/
def content_text (lang : String) (spans : List Span) : String :=
  String.intercalate "\n" ((spans.filter (span_contains_content lang)).map Span.text)

/-- `WiktionaryTable.cell_text`: the cleaned cell text when the cell has no
spans, else the language-filtered span text. -/
def cell_text (lang : String) (cell : Cell) : String :=
  if cell.spans.isEmpty then cell.cleanText else content_text lang cell.spans

/-- The `re.compile("[,/\n]")` split of `cell_entry`, each piece stripped. -/
def splitForms (text : String) : List String :=
  (pySplit (fun c => c == ',' || c == '/' || c == '\n') text).map pyStrip

/-- `WiktionaryTable.cell_entry`: split a non-empty cell text into candidate
forms; empty text yields the empty list. -/
def cell_entry (lang : String) (cell : Cell) : List String :=
  if (cell_text lang cell).length ≠ 0 then splitForms (cell_text lang cell) else []

/-! ### Grid reconstruction (`WiktionaryTable.parse_table`)

The Python loop juggles four mutable iterators (`row_iter`, `col_iter`,
`cells_iter`, and the dict under construction).  The embedding makes the
iterator states explicit lists: `advCols`/`advRows` are the
`while coord in table_dict` loop (which first consumes `col_iter`, then —
once columns are exhausted — consumes `row_iter`, and gives up when both
are exhausted), `skipEmpty` is the `while is_col_empty(cell)` loop, and
`rowLoop`/`outerLoop` are the `for c in col_iter` / `for r in row_iter`
loops.  A `Placement` additionally records, for each cell placed, its
origin coordinate, its clamped spans and the effective column count at
that moment — ghost data used by the claims about placement. -/

abbrev Coord := Nat × Nat

abbrev Grid := List (Coord × Cell)

def gridFind (g : Grid) (k : Coord) : Option Cell := alookup g k

def gridInsert (g : Grid) (k : Coord) (v : Cell) : Grid := aset g k v

/-- Lexicographic comparison of coordinates — Python's tuple `sorted`. -/
def coordLe (a b : Coord) : Bool := Nat.blt a.1 b.1 || (a.1 == b.1 && Nat.ble a.2 b.2)

def sInsert {α : Type} (le : α → α → Bool) (x : α) : List α → List α
  | [] => [x]
  | y :: ys => if le x y then x :: y :: ys else y :: sInsert le x ys

def sSort {α : Type} (le : α → α → Bool) : List α → List α
  | [] => []
  | x :: xs => sInsert le x (sSort le xs)

/-- `sorted(table_dict)` paired with the cells: the grid's entries in
ascending coordinate order. -/
def sortedGrid (g : Grid) : List (Coord × Cell) := sSort (fun a b => coordLe a.1 b.1) g

/-- The column-consuming phase of `while coord in table_dict`: advance `c`
(consuming `col_iter`) while the coordinate is occupied; returns the new
column, the remaining `col_iter`, and whether a free coordinate was
reached (false = columns exhausted while still occupied). -/
def advCols (dict : Grid) (r c : Nat) (colIter : List Nat) : Nat × List Nat × Bool :=
  if (gridFind dict (r, c)).isSome then
    match colIter with
    | [] => (c, [], false)
    | _ :: rest => advCols dict r (c + 1) rest
  else (c, colIter, true)

/-- The row-consuming phase of `while coord in table_dict` (entered once
`col_iter` is exhausted): advance `r` (consuming `row_iter`) while the
coordinate is occupied; false = both iterators exhausted (the `break`). -/
def advRows (dict : Grid) (c r : Nat) (rowIter : List Nat) : Nat × List Nat × Bool :=
  if (gridFind dict (r, c)).isSome then
    match rowIter with
    | [] => (r, [], false)
    | _ :: rest => advRows dict c (r + 1) rest
  else (r, rowIter, true)

/-- `while is_col_empty(cell): cell = cells_iter.next()` — skip empty
decorative columns; the returned cell can still be empty when the row's
cells ran out. -/
def skipEmpty (nR : Nat) (cell : Cell) (cells : List Cell) : Cell × List Cell :=
  if is_col_empty nR cell then
    match cells with
    | [] => (cell, [])
    | c2 :: rest => skipEmpty nR c2 rest
  else (cell, cells)

/-- Ghost record of one placement performed by `parse_table`: the cell, its
origin `(r, c)`, the clamped `rowspan`/`colspan` actually replicated, and
the effective column count at that moment. -/
structure Placement where
  cell : Cell
  r : Nat
  c : Nat
  rs : Nat
  cs : Nat
  ncols : Nat
deriving DecidableEq

/-- One row of the replication rectangle: writes `(r, c + j)` for `j < n`. -/
def writeRow (g : Grid) (cell : Cell) (r c : Nat) : Nat → Grid
  | 0 => g
  | j + 1 => gridInsert (writeRow g cell r c j) (r, c + j) cell

/-- The replication rectangle of the `while rs < rowspan` / `while cs <
colspan` loops: writes `(r + i, c + j)` for `i < rs`, `j < cs`. -/
def writeRect (g : Grid) (cell : Cell) (r c : Nat) : Nat → Nat → Grid
  | 0, _ => g
  | i + 1, cs => writeRow (writeRect g cell r c i cs) cell (r + i) c cs

structure RowOut where
  rowIter : List Nat
  ncols : Nat
  grid : Grid
  log : List Placement

def advCols_len (dict : Grid) (r c : Nat) (colIter : List Nat) :
    (advCols dict r c colIter).2.1.length ≤ colIter.length := by
  induction colIter generalizing c with
  | nil =>
      unfold advCols
      split
      · exact Nat.le_refl _
      · exact Nat.le_refl _
  | cons a rest ih =>
      unfold advCols
      split
      · exact Nat.le_succ_of_le (ih (c + 1))
      · exact Nat.le_refl _

def advRows_len (dict : Grid) (c r : Nat) (rowIter : List Nat) :
    (advRows dict c r rowIter).2.1.length ≤ rowIter.length := by
  induction rowIter generalizing r with
  | nil =>
      unfold advRows
      split
      · exact Nat.le_refl _
      · exact Nat.le_refl _
  | cons a rest ih =>
      unfold advRows
      split
      · exact Nat.le_succ_of_le (ih (r + 1))
      · exact Nat.le_refl _

def colIter1_len (dict : Grid) (r c : Nat) (colRest : List Nat) (k : Nat) :
    ((if (advCols dict r c colRest).2.2 then (advCols dict r c colRest).2.1
      else ([] : List Nat)).drop k).length ≤ colRest.length := by
  rw [List.length_drop]
  refine Nat.le_trans (Nat.sub_le _ _) ?_
  split
  · exact advCols_len dict r c colRest
  · exact Nat.zero_le _

def colIter1_len0 (dict : Grid) (r c : Nat) (colRest : List Nat) :
    (if (advCols dict r c colRest).2.2 then (advCols dict r c colRest).2.1
      else ([] : List Nat)).length ≤ colRest.length := by
  split
  · exact advCols_len dict r c colRest
  · exact Nat.zero_le _

/-- The `for c in col_iter` body of `parse_table`, processing one physical
row's cells.  `nR` is `self.num_rows`; `r` is the (mutable) current row;
`rowIter` the outer iterator's remaining rows; `cells` the remaining cells
of the physical row; `ncols` the current effective column count. -/
def rowLoop (nR : Nat) (r : Nat) (rowIter : List Nat) (colIter : List Nat)
    (cells : List Cell) (ncols : Nat) (dict : Grid) (log : List Placement) : RowOut :=
  match colIter with
  | [] => ⟨rowIter, ncols, dict, log⟩
  | c :: colRest =>
      match cells with
      | [] => rowLoop nR r rowIter colRest [] ncols dict log
      | cell0 :: cellsRest0 =>
          let sk := skipEmpty nR cell0 cellsRest0
          if is_col_empty nR sk.1 then
            rowLoop nR r rowIter colRest sk.2 (ncols - 1) dict log
          else
            let ac := advCols dict r c colRest
            let ar := if ac.2.2 then (r, rowIter, true) else advRows dict ac.1 r rowIter
            let colIter1 := if ac.2.2 then ac.2.1 else ([] : List Nat)
            if ar.2.2 then
              let rsp := min (cell_rowspan sk.1) nR
              let csp := min (cell_colspan sk.1) ncols
              let p : Placement := ⟨sk.1, ar.1, ac.1, rsp, csp, ncols⟩
              if csp ≠ 1 ∨ rsp ≠ 1 then
                rowLoop nR ar.1 ar.2.1 (colIter1.drop (csp - 1)) sk.2 ncols
                  (writeRect dict sk.1 ar.1 ac.1 rsp csp) (log ++ [p])
              else
                rowLoop nR ar.1 ar.2.1 colIter1 sk.2 ncols
                  (gridInsert dict (ar.1, ac.1) sk.1) (log ++ [p])
            else ⟨ar.2.1, ncols, dict, log⟩
termination_by colIter.length
decreasing_by
  · simp only [List.length_cons]
    exact Nat.lt_succ_self _
  · simp only [List.length_cons]
    exact Nat.lt_succ_self _
  · simp only [List.length_cons]
    exact Nat.lt_succ_of_le (colIter1_len _ _ _ _ _)
  · simp only [List.length_cons]
    exact Nat.lt_succ_of_le (colIter1_len0 _ _ _ _)

def rowLoop_rowIter_len (nR r : Nat) (rowIter colIter : List Nat) (cells : List Cell)
    (ncols : Nat) (dict : Grid) (log : List Placement) :
    (rowLoop nR r rowIter colIter cells ncols dict log).rowIter.length ≤ rowIter.length := by
  refine rowLoop.induct nR
    (fun r rowIter colIter cells ncols dict log =>
      (rowLoop nR r rowIter colIter cells ncols dict log).rowIter.length ≤ rowIter.length)
    ?_ ?_ ?_ ?_ ?_ ?_ r rowIter colIter cells ncols dict log
  · intro r rowIter cells ncols dict log
    rw [rowLoop]
  · intro r rowIter ncols dict log head rest ih
    rw [rowLoop]
    exact ih
  · intro r rowIter ncols dict log head rest c2 rest1
    dsimp only
    intro hemp ih
    rw [rowLoop]
    dsimp only
    rw [if_pos hemp]
    exact ih
  · intro r rowIter ncols dict log head rest c2 rest1
    dsimp only
    intro hemp hfree hspan ih
    simp only [dite_eq_ite] at hfree ih
    rw [rowLoop]
    dsimp only
    rw [if_neg hemp, if_pos hfree, if_pos hspan]
    refine Nat.le_trans ih ?_
    split
    · exact Nat.le_refl _
    · exact advRows_len _ _ _ _
  · intro r rowIter ncols dict log head rest c2 rest1
    dsimp only
    intro hemp hfree hspan ih
    simp only [dite_eq_ite] at hfree ih
    rw [rowLoop]
    dsimp only
    rw [if_neg hemp, if_pos hfree, if_neg hspan]
    refine Nat.le_trans ih ?_
    split
    · exact Nat.le_refl _
    · exact advRows_len _ _ _ _
  · intro r rowIter ncols dict log head rest c2 rest1
    dsimp only
    intro hemp hfree
    simp only [dite_eq_ite] at hfree
    rw [rowLoop]
    dsimp only
    rw [if_neg hemp, if_neg hfree]
    split
    · exact Nat.le_refl _
    · exact advRows_len _ _ _ _

/-- The `for r in row_iter` loop of `parse_table`: take the next remaining
row index, rebuild `col_range = range(num_cols)` with the current
effective column count, process the row, and continue with whatever rows
the inner loop left unconsumed. -/
def outerLoop (t : Table) (rowIter : List Nat) (ncols : Nat) (dict : Grid)
    (log : List Placement) : Grid × List Placement :=
  match rowIter with
  | [] => (dict, log)
  | r :: rowRest =>
      let out := rowLoop (num_rows t) r rowRest (List.range ncols) (t.rows.getD r [])
        ncols dict log
      outerLoop t out.rowIter out.ncols out.grid out.log
termination_by rowIter.length
decreasing_by
  simp only [List.length_cons]
  exact Nat.lt_succ_of_le (rowLoop_rowIter_len _ _ _ _ _ _ _ _)

/-- `WiktionaryTable.parse_table`: the reconstructed coordinate grid
(`self.num_rows` rows, `self.num_cols` initial columns, empty dict). -/
def parse_table (t : Table) : Grid :=
  (outerLoop t (List.range (num_rows t)) (count_cols t) [] []).1

/-- The ghost placement log of the same run of `parse_table`. -/
def parse_table_log (t : Table) : List Placement :=
  (outerLoop t (List.range (num_rows t)) (count_cols t) [] []).2

/-! ### Label resolution (`cell_rows` / `cell_cols`) and the declension -/

/-- The scanning loop of `WiktionaryTable.cell_rows` over the previous
same-row cells in descending column order: a header whose row-span is at
most `nRind` with non-empty, not-yet-collected text is inserted at the
front and starts the header run; a non-header after the run began stops
the scan. -/
def cellRowsGo (lang : String) (nRind : Nat) :
    List (Coord × Cell) → List String → Bool → List String
  | [], rows, _ => rows
  | (_, cell) :: rest, rows, headerYet =>
      if is_header lang cell then
        if cell_rowspan cell ≤ nRind ∧ (cell_text lang cell).length ≠ 0 then
          if cell_text lang cell ∈ rows then cellRowsGo lang nRind rest rows headerYet
          else cellRowsGo lang nRind rest (cell_text lang cell :: rows) true
        else cellRowsGo lang nRind rest rows headerYet
      else if headerYet then rows
      else cellRowsGo lang nRind rest rows headerYet

/-- The threshold `cell_rows` actually compares row-spans against:
`num_rows, num_cols = sorted(table_dict)[-1]` unpacks the LAST sorted
coordinate, so `num_rows` is the largest row index present in the grid
(on an empty grid the source raises `IndexError`; the default 0 is out of
every claim's scope). -/
def codeNRind (dict : Grid) : Nat :=
  (((sortedGrid dict).getLast?).map (fun p => p.1.1)).getD 0

/-- `WiktionaryTable.cell_rows`.  The source filters `sorted(table_dict)`
for keys in the same row with a smaller column and reads each cell back
out of the dict; with unique keys that is the same as filtering the
sorted (coordinate, cell) entries directly. -/
def cell_rows (lang : String) (coord : Coord) (dict : Grid) : List String :=
  let sorted := sortedGrid dict
  let prevRows := sorted.filter (fun p => p.1.1 == coord.1 && Nat.blt p.1.2 coord.2)
  cellRowsGo lang (codeNRind dict) prevRows.reverse [] false

/-- The scanning loop of `WiktionaryTable.cell_cols` over the previous
same-column cells in descending row order; unlike `cell_rows` there is no
duplicate check, and the threshold is a STRICT comparison of the col-span
against the table's `self.num_cols`. -/
def cellColsGo (lang : String) (nCols : Nat) :
    List (Coord × Cell) → List String → Bool → List String
  | [], cols, _ => cols
  | (_, cell) :: rest, cols, headerYet =>
      if is_header lang cell then
        if cell_colspan cell < nCols ∧ (cell_text lang cell).length ≠ 0 then
          cellColsGo lang nCols rest (cell_text lang cell :: cols) true
        else cellColsGo lang nCols rest cols headerYet
      else if headerYet then cols
      else cellColsGo lang nCols rest cols headerYet

/-- `WiktionaryTable.cell_cols`. -/
def cell_cols (lang : String) (nCols : Nat) (coord : Coord) (dict : Grid) : List String :=
  let sorted := sortedGrid dict
  let prevCols := sorted.filter (fun p => p.1.2 == coord.2 && Nat.blt p.1.1 coord.1)
  cellColsGo lang nCols prevCols.reverse [] false

/-- The `line_text` lambda of `parse_declension`: lowercase each label,
replace spaces by underscores, join with " > ".  (The source's
`len(line) > 0` conjunct ranges over the whole tuple and is vacuously true
inside the comprehension; only the em-dash filter remains.) -/
def lineText (line : List String) : String :=
  String.intercalate " > "
    ((line.filter (fun l => !(l.data.contains '—'))).map (fun l => pyUnderscore (pyLower l)))

abbrev Decl := List (String × List (String × List String))

def declLookup (d : Decl) (colT rowT : String) : Option (List String) :=
  (alookup d colT).bind (fun m => alookup m rowT)

/-- One iteration of the `for coord in sorted_coords` loop of
`WiktionaryTable.parse_declension`. -/
def declStep (t : Table) (coords : Grid) (decl : Decl) (pr : Coord × Cell) : Decl :=
  if is_content t.language pr.2 ∧ cell_colspan pr.2 ≤ count_cols t then
    let rowT := lineText (cell_rows t.language pr.1 coords)
    let colT := lineText (cell_cols t.language (count_cols t) pr.1 coords)
    let entry := cell_entry t.language pr.2
    if entry.length > 0 ∧ colT.length > 0 then
      if rowT.length > 0 ∨ (num_rows t : Int) - (count_cols t : Int) = 1 then
        let colMap := (alookup decl colT).getD []
        let old := (alookup colMap rowT).getD []
        aset decl colT (aset colMap rowT (osItems (old ++ entry)))
      else decl
    else decl
  else decl

/-- `WiktionaryTable.parse_declension`. -/
def parse_declension (t : Table) : Decl :=
  (sortedGrid (parse_table t)).foldl (declStep t (parse_table t)) []

/-! ### C9: the row-path algorithm as the spec words it -/

/-- One scanned cell of the claim's row-path algorithm, on state
(path, header-run flag, stopped flag). -/
def specRowStep (lang : String) (nR : Nat) (st : List String × Bool × Bool) (cell : Cell) :
    List String × Bool × Bool :=
  if st.2.2 then st
  else if is_header lang cell then
    if cell_rowspan cell ≤ nR ∧ (cell_text lang cell).length ≠ 0 then
      if cell_text lang cell ∈ st.1 then st
      else (cell_text lang cell :: st.1, true, false)
    else st
  else if st.2.1 then (st.1, st.2.1, true)
  else st

/-- The row-path computation exactly as the claim words it, parameterized
by the row-span threshold `nR` (which the claim takes to be the grid's row
count): scan the same-row smaller-column cells in descending column order,
collect qualifying header texts at the front, stop at the first non-header
after a header was collected. -/
def cellRowsSpec (lang : String) (nR : Nat) (coord : Coord) (dict : Grid) : List String :=
  let cellsDesc := (((sortedGrid dict).filter
    (fun p => p.1.1 == coord.1 && Nat.blt p.1.2 coord.2)).reverse).map (·.2)
  (cellsDesc.foldl (specRowStep lang nR) ([], false, false)).1

/-! ### Concrete tables used by individual claims -/

def tdCell (id : Nat) (text : String) : Cell :=
  ⟨"td", none, none, none, none, [], text, text, false, false, id⟩

def thCell (id : Nat) (text : String) : Cell :=
  ⟨"th", none, none, none, none, [], text, text, false, false, id⟩

/-- C1's table: cell A spans two rows from (0,1); cell B on the next row
spans two columns from (1,0), overwriting A's (1,1) entry. -/
def cellX : Cell := tdCell 1 "x"

def cellA : Cell := ⟨"td", some 2, none, none, none, [], "a", "a", false, false, 2⟩

def cellB : Cell := ⟨"td", none, some 2, none, none, [], "b", "b", false, false, 3⟩

def cellC : Cell := tdCell 4 "c"

def cellD : Cell := tdCell 5 "d"

def ex1 : Table := ⟨"L", [[cellX, cellA], [cellB], [cellC, cellD]]⟩

/-- C6's table: cell Z at (1,0) reports rowspan 5 in a 3-row table (it
carries a "text" attribute so that `is_col_empty` does not discard it
before placement). -/
def cellZ : Cell := ⟨"td", some 5, none, some "t", none, [], "z", "z", false, false, 13⟩

def ex6 : Table := ⟨"L", [[tdCell 11 "x", tdCell 12 "y"], [cellZ], [tdCell 14 "w"]]⟩

/-- C7's table: cell F spans the full two rows, carries the text "kot" and
a link into the language, but has no "text" HTML attribute. -/
def cellF : Cell :=
  ⟨"td", some 2, none, none, some (some "/wiki/kot#Polish"), [], "kot", "kot", false, false, 21⟩

def cellG : Cell := tdCell 22 "koty"

def cellH : Cell := tdCell 23 "kota"

def ex7 : Table := ⟨"Polish", [[cellF, cellG], [cellH]]⟩

/-- C9's table: a 3-row grid whose (1,1) cell has, to its left, the header
H9 with rowspan 3 (equal to the row count; it carries a "text" attribute
so that `is_col_empty` does not discard it). -/
def cellH9 : Cell :=
  ⟨"th", some 3, none, some "t", none, [], "masculine", "masculine", false, false, 31⟩

def ex9 : Table :=
  ⟨"L", [[cellH9, tdCell 32 "kot"], [tdCell 33 "kota"], [tdCell 34 "kotu"]]⟩

/-- C5's table: 3 rows × 2 columns (so rows − cols = 1); the content cell
at (1,0) has text "," — its comma/slash/newline split yields only empty
forms — below the column header "S". -/
def exH1 : Cell := thCell 41 "S"

def exH2 : Cell := thCell 42 "P"

def exT : Cell := tdCell 43 ","

def ex5 : Table := ⟨"L", [[exH1, exH2], [exT, thCell 44 "u"], [thCell 45 "v", thCell 46 "w"]]⟩

/-! ### Concrete stores used by individual claims -/

def st10 : Store (List String) := [("kot", [("Polish", [])])]

def st2 : Store (List String) := [("cat", [("English", [("Etymology", ["felinus"])])])]

def st2' : Store (List String) := [("cat", [("English", [("Etymology", ["felinus", "catus"])])])]

def st8 : Store (List String) := [("cat", [("English", [("Noun", ["a cat"])])])]

def st3 : Store Content := [("driven", [("English",
  [("Verb", Content.pairs
    [("driven (comparative more driven, superlative most driven)", none),
     ("past participle of drive", some "drive")])])])]

def st3b : Store Content := [("driven", [("English",
  [("Verb", Content.pairs [("driven (comparative more driven)", some "drv")])])])]

/-- A two-word etymology cycle: A's etymology is [B], B's etymology is [A]. -/
def st4 : Store (List String) :=
  [("A", [("L", [("Etymology", ["B"])])]),
   ("B", [("L", [("Etymology", ["A"])])])]

/-! ### Lemmas about the OrderedSet model -/

theorem mem_osAdd {α : Type} [DecidableEq α] {m : List α} {x y : α} :
    x ∈ osAdd m y ↔ x ∈ m ∨ x = y := by
  unfold osAdd
  split
  · rename_i h
    exact ⟨Or.inl, fun hx => hx.elim id (fun e => e ▸ h)⟩
  · simp

theorem mem_osUpdate {α : Type} [DecidableEq α] (l : List α) (m : List α) (x : α) :
    x ∈ osUpdate m l ↔ x ∈ m ∨ x ∈ l := by
  induction l generalizing m with
  | nil => simp [osUpdate]
  | cons a t ih =>
      show x ∈ osUpdate (osAdd m a) t ↔ _
      rw [ih, mem_osAdd, List.mem_cons]
      tauto

theorem nodup_osAdd {α : Type} [DecidableEq α] {m : List α} (y : α) (hm : m.Nodup) :
    (osAdd m y).Nodup := by
  unfold osAdd
  split
  · exact hm
  · rename_i hy
    simp [List.nodup_append, hm, hy]

theorem nodup_osUpdate {α : Type} [DecidableEq α] (l : List α) {m : List α} (hm : m.Nodup) :
    (osUpdate m l).Nodup := by
  induction l generalizing m with
  | nil => exact hm
  | cons a t ih => exact ih (nodup_osAdd a hm)

theorem osUpdate_eq_of_subset {α : Type} [DecidableEq α] {l m : List α}
    (h : ∀ x ∈ l, x ∈ m) : osUpdate m l = m := by
  induction l with
  | nil => rfl
  | cons a t ih =>
      show osUpdate (osAdd m a) t = m
      rw [osAdd, if_pos (h a (List.mem_cons_self a t))]
      exact ih (fun x hx => h x (List.mem_cons_of_mem a hx))

theorem osUpdate_append {α : Type} [DecidableEq α] (m l₁ l₂ : List α) :
    osUpdate m (l₁ ++ l₂) = osUpdate (osUpdate m l₁) l₂ :=
  List.foldl_append _ _ _ _

theorem osUpdate_fresh {α : Type} [DecidableEq α] (l : List α) {acc : List α}
    (hl : l.Nodup) (hfresh : ∀ a ∈ l, a ∉ acc) : osUpdate acc l = acc ++ l := by
  induction l generalizing acc with
  | nil => simp [osUpdate]
  | cons a t ih =>
      show osUpdate (osAdd acc a) t = _
      rw [osAdd, if_neg (hfresh a (List.mem_cons_self a t))]
      rw [ih (List.Nodup.of_cons hl)]
      · simp
      · intro b hb
        simp only [List.mem_append, List.mem_singleton]
        rintro (hacc | rfl)
        · exact hfresh b (List.mem_cons_of_mem a hb) hacc
        · exact (List.nodup_cons.mp hl).1 hb

theorem osItems_nodup {α : Type} [DecidableEq α] (l : List α) : (osItems l).Nodup :=
  nodup_osUpdate l List.nodup_nil

theorem osItems_of_nodup {α : Type} [DecidableEq α] {l : List α} (h : l.Nodup) :
    osItems l = l := by
  have := @osUpdate_fresh _ _ l [] h (by simp)
  simpa [osItems] using this

theorem mem_osItems {α : Type} [DecidableEq α] (l : List α) (x : α) :
    x ∈ osItems l ↔ x ∈ l := by
  simp [osItems, mem_osUpdate]

/-- Re-merging already-merged content is absorbed: deduplicating
`dedup(old ++ c) ++ c` gives back `dedup(old ++ c)`. -/
theorem osItems_absorb {α : Type} [DecidableEq α] (old c : List α) :
    osItems (osItems (old ++ c) ++ c) = osItems (old ++ c) := by
  have hsub : ∀ a ∈ c, a ∈ osItems (old ++ c) := by
    intro a ha
    exact (mem_osItems _ _).mpr (List.mem_append_right old ha)
  calc osItems (osItems (old ++ c) ++ c)
      = osUpdate (osUpdate [] (osItems (old ++ c))) c := osUpdate_append _ _ _
    _ = osUpdate (osItems (old ++ c)) c := by
        rw [show osUpdate ([] : List α) (osItems (old ++ c)) = osItems (osItems (old ++ c)) from rfl,
          osItems_of_nodup (osItems_nodup _)]
    _ = osItems (old ++ c) := osUpdate_eq_of_subset hsub

theorem osItems_ne_nil {α : Type} [DecidableEq α] {l : List α} (h : l ≠ []) :
    osItems l ≠ [] := by
  intro hn
  match l, h with
  | a :: t, _ =>
      have : a ∈ osItems (a :: t) := (mem_osItems _ _).mpr (List.mem_cons_self a t)
      rw [hn] at this
      exact absurd this (List.not_mem_nil a)

/-! ### Lemmas about association lists -/

theorem alookup_cons {κ β : Type} [DecidableEq κ] (q : κ × β) (t : List (κ × β)) (k : κ) :
    alookup (q :: t) k = if q.1 = k then some q.2 else alookup t k := by
  by_cases h : q.1 = k <;> simp [alookup, List.find?_cons, h]

theorem alookup_aset_self {κ β : Type} [DecidableEq κ] (l : List (κ × β)) (k : κ) (v : β) :
    alookup (aset l k v) k = some v := by
  induction l with
  | nil => simp [aset, alookup_cons, alookup]
  | cons p t ih =>
      rw [aset]
      split
      · simp [alookup_cons]
      · rename_i hne
        rw [alookup_cons, if_neg hne]
        exact ih

theorem alookup_aset_ne {κ β : Type} [DecidableEq κ] (l : List (κ × β)) (k k' : κ) (v : β)
    (h : k' ≠ k) : alookup (aset l k v) k' = alookup l k' := by
  induction l with
  | nil => simp [aset, alookup_cons, alookup, Ne.symm h]
  | cons p t ih =>
      rw [aset]
      split
      · rename_i hk
        subst hk
        rw [alookup_cons, alookup_cons]
        simp [Ne.symm h]
      · rw [alookup_cons, alookup_cons, ih]

theorem aset_eq_of_lookup {κ β : Type} [DecidableEq κ] {l : List (κ × β)} {k : κ} {v : β}
    (h : alookup l k = some v) : aset l k v = l := by
  induction l with
  | nil => simp [alookup] at h
  | cons p t ih =>
      rw [alookup_cons] at h
      rw [aset]
      split
      · rename_i hk
        rw [if_pos hk] at h
        injection h with h2
        subst h2
        rw [← hk, Prod.mk.eta]
      · rename_i hk
        rw [if_neg hk] at h
        rw [ih h]

/-! ### C10: `entry_word` capitalization retry -/

/-- C10: `entry_word` returns the first of the three capitalization
variants `word`, `word.lower()`, `word.title()` that has a stored entry
under the language, and returns the input word unchanged when none of the
three does. -/
theorem c10_entry_word {α : Type} (s : Store α) (w l : String) :
    ((lookupLang s w l).isSome = true → entry_word s w l = w)
    ∧ ((lookupLang s w l).isSome = false → (lookupLang s (pyLower w) l).isSome = true →
        entry_word s w l = pyLower w)
    ∧ ((lookupLang s w l).isSome = false → (lookupLang s (pyLower w) l).isSome = false →
        (lookupLang s (pyTitle w) l).isSome = true → entry_word s w l = pyTitle w)
    ∧ ((lookupLang s w l).isSome = false → (lookupLang s (pyLower w) l).isSome = false →
        (lookupLang s (pyTitle w) l).isSome = false → entry_word s w l = w) := by
  refine ⟨?_, ?_, ?_, ?_⟩ <;> intros <;> simp_all [entry_word, List.find?]

/-- Concrete instance of C10: the store knows "kot"/Polish, the query uses
"KOT", and the lowercase variant is returned. -/
theorem c10_entry_word_witness :
    (lookupLang st10 "KOT" "Polish").isSome = false
    ∧ entry_word st10 "KOT" "Polish" = "kot" := by
  refine ⟨by decide, ?_⟩
  have h := (c10_entry_word st10 "KOT" "Polish").2.1 (by decide) (by decide)
  rw [h]
  decide

/-! ### C2 / C8: merge (`edit_wiktionary_entry`) -/

theorem lookupLang_storeSet {α : Type} (s : Store α) (w l : String) (e : Entry α) :
    lookupLang (storeSet s w l e) w l = some e := by
  show (alookup (aset s w (aset ((alookup s w).getD []) l e)) w).bind (fun x => alookup x l)
      = some e
  rw [alookup_aset_self]
  show alookup (aset ((alookup s w).getD []) l e) l = some e
  exact alookup_aset_self _ _ _

/-- C2: merge is idempotent — running `edit_wiktionary_entry` a second time
with identical arguments maps the once-merged store to itself.  (When the
first merge raises — `none` — the store was not modified, so the property
is about the successful path.) -/
theorem c2_merge_idempotent {β : Type} [DecidableEq β] (s : Store (List β))
    (w l h : String) (c : List β) (s' : Store (List β))
    (he : edit_wiktionary_entry s w l h c = some s') :
    edit_wiktionary_entry s' w l h c = some s' := by
  unfold edit_wiktionary_entry at he
  cases hL : lookupLang s w l with
  | none => rw [hL] at he; cases he
  | some entry =>
      rw [hL] at he
      injection he with he'
      obtain ⟨langs, hw, hl⟩ := lookupLang_some hL
      set old : List β := (alookup entry h).getD [] with hold
      set v : List β := osItems (old ++ c) with hv
      subst he'
      have hL' : lookupLang (storeSet s w l (aset entry h v)) w l = some (aset entry h v) :=
        lookupLang_storeSet _ _ _ _
      have hvh : alookup (aset entry h v) h = some v := alookup_aset_self _ _ _
      have hw' : alookup (storeSet s w l (aset entry h v)) w
          = some (aset langs l (aset entry h v)) := by
        show alookup (aset s w (aset ((alookup s w).getD []) l (aset entry h v))) w = _
        rw [hw, Option.getD_some]
        exact alookup_aset_self _ _ _
      simp only [edit_wiktionary_entry, hL']
      rw [hvh, Option.getD_some]
      rw [show osItems (v ++ c) = v from by rw [hv, hold]; exact osItems_absorb old c]
      rw [aset_eq_of_lookup hvh]
      congr 1
      show aset (storeSet s w l (aset entry h v)) w
          (aset ((alookup (storeSet s w l (aset entry h v)) w).getD []) l (aset entry h v))
          = storeSet s w l (aset entry h v)
      rw [hw', Option.getD_some,
        aset_eq_of_lookup (alookup_aset_self langs l (aset entry h v)),
        aset_eq_of_lookup hw']

/-- Concrete instance for C2: merging `["felinus","catus"]` into an
existing Etymology twice equals merging once. -/
theorem c2_merge_idempotent_witness :
    edit_wiktionary_entry st2 "cat" "English" "Etymology" ["felinus", "catus"] = some st2'
    ∧ edit_wiktionary_entry st2' "cat" "English" "Etymology" ["felinus", "catus"] = some st2' :=
  ⟨by decide,
   c2_merge_idempotent st2 "cat" "English" "Etymology" ["felinus", "catus"] st2' (by decide)⟩

/-- C8 as stated is false: a merge whose `(word, language)` pair is absent
raises (modelled `none`) instead of creating the triple — here the store is
empty, the triple `("cat","English","Etymology")` is absent, and the merge
produces no store at all. -/
theorem c8_merge_creates_cx :
    lookup3 ([] : Store (List String)) "cat" "English" "Etymology" = none
    ∧ edit_wiktionary_entry ([] : Store (List String)) "cat" "English" "Etymology" ["felinus"]
        = none := by
  decide

/-- C8 (amended): a merge into a store where the `(word, language)` pair
exists but the heading is absent creates the heading and stores the
deduplicated content; when the word or language key is absent, the merge
raises (modelled `none`) and no triple is created. -/
theorem c8_merge_creates (s : Store (List String)) (w l h : String) (c : List String) :
    (lookupLang s w l = none → edit_wiktionary_entry s w l h c = none)
    ∧ (∀ entry, lookupLang s w l = some entry → alookup entry h = none →
        edit_wiktionary_entry s w l h c
          = some (storeSet s w l (aset entry h (osItems c)))
        ∧ lookup3 (storeSet s w l (aset entry h (osItems c))) w l h = some (osItems c)) := by
  constructor
  · intro hn
    unfold edit_wiktionary_entry
    rw [hn]
  · intro entry hL hh
    constructor
    · simp only [edit_wiktionary_entry, hL, hh, Option.getD_none, List.nil_append]
    · unfold lookup3
      rw [lookupLang_storeSet]
      show alookup (aset entry h (osItems c)) h = some (osItems c)
      exact alookup_aset_self _ _ _

/-- Concrete instance for C8 (amended): word and language exist, the
heading "Etymology" does not; the merge creates it with the deduplicated
content. -/
theorem c8_merge_creates_witness :
    lookup3 st8 "cat" "English" "Etymology" = none
    ∧ edit_wiktionary_entry st8 "cat" "English" "Etymology" ["felinus", "felinus", "catus"]
        = some (storeSet st8 "cat" "English"
            (aset [("Noun", ["a cat"])] "Etymology" (osItems ["felinus", "felinus", "catus"])))
    ∧ lookup3 (storeSet st8 "cat" "English"
          (aset [("Noun", ["a cat"])] "Etymology" (osItems ["felinus", "felinus", "catus"])))
        "cat" "English" "Etymology" = some ["felinus", "catus"] := by
  refine ⟨by decide, ?_, ?_⟩
  · exact ((c8_merge_creates st8 "cat" "English" "Etymology" ["felinus", "felinus", "catus"]).2
      [("Noun", ["a cat"])] (by decide) (by decide)).1
  · have h := ((c8_merge_creates st8 "cat" "English" "Etymology"
      ["felinus", "felinus", "catus"]).2 [("Noun", ["a cat"])] (by decide) (by decide)).2
    rw [h]
    decide

theorem entry_word_of_present {α : Type} (s : Store α) (word lang : String)
    (h : (lookupLang s word lang).isSome = true) : entry_word s word lang = word := by
  simp [entry_word, List.find?, h]

theorem osItems_eq_nil_iff {α : Type} [DecidableEq α] (l : List α) :
    osItems l = [] ↔ l = [] := by
  constructor
  · intro h
    by_contra hne
    exact osItems_ne_nil hne h
  · rintro rfl
    rfl

/-- C3 as stated is false in its parenthetical: when the stem-word
collection is empty the cascade consults `pos_entry[0][0]` — the first
pair's definition text — not "the first pair's paired lemma".  On this
store the entry has a single Verb pair whose text is
"driven (comparative more driven)" and whose paired lemma is "drv"; the
code returns the text, the claim's reading returns the lemma. -/
theorem c3_lemma_cascade_cx :
    lookup_word_inflections st3b "driven" "English" = none
    ∧ find_word_inflections st3b "driven" "English" = none
    ∧ word_lemmas st3b "English" (fun _ => true) ["Verb"] "driven"
        = ["driven (comparative more driven)"]
    ∧ claim_c3_result [("Verb", Content.pairs [("driven (comparative more driven)", some "drv")])]
        ["Verb"] (fun _ => true) = ["drv"]
    ∧ ("driven (comparative more driven)" : String) ≠ "drv" := by
  refine ⟨by decide, by decide, by decide, by decide, by decide⟩

/-- C3 (amended): for a word with a stored entry and no declension
(neither a literal "Declension" heading nor a heading with that prefix),
the cascade collects the stem words exactly as the claim describes and
consults head words — the first pair's FIRST element, the definition
text — only when the stem-word collection is empty, the result being
deduplicated and filtered by the membership check. -/
theorem c3_lemma_cascade (s : Store Content) (lang : String) (verify : String → Bool)
    (poses : List String) (word : String) (entry : Entry Content)
    (hw : ¬ word = "")
    (hE : lookupLang s word lang = some entry)
    (hD1 : lookup_word_inflections s word lang = none)
    (hD2 : find_word_inflections s word lang = none) :
    word_lemmas s lang verify poses word =
      (if (claim_stemwords entry poses).length = 0
        then osItems (find_headwords s lang poses word)
        else osItems (claim_stemwords entry poses)).filter verify := by
  have hew : entry_word s word lang = word :=
    entry_word_of_present s word lang (by rw [hE]; rfl)
  have hstems : find_stemwords s lang poses word = some (claim_stemwords entry poses) := by
    simp only [find_stemwords, find_wiktionary_entry, claim_stemwords, hE]
  simp only [word_lemmas, if_neg hw, hew, hD1, hD2, hstems, Option.getD_some]
  by_cases hz : (claim_stemwords entry poses).length = 0
  · have hnil : claim_stemwords entry poses = [] := List.length_eq_zero.mp hz
    simp only [hnil, osItems, osUpdate, List.foldl_nil, List.length_nil, if_pos rfl]
  · have hz' : ¬ (osUpdate [] (claim_stemwords entry poses)).length = 0 := by
      intro h0
      exact hz (List.length_eq_zero.mpr
        ((osItems_eq_nil_iff _).mp (List.length_eq_zero.mp h0)))
    simp only [if_neg hz', if_neg hz, osItems]

/-- Concrete instance of C3's scenario: `lemmas("driven","English",{"Verb"})`
with the stored two-pair Verb entry returns `["drive"]` via the stem-word
branch, the head-word pair excluded. -/
theorem c3_lemma_cascade_witness :
    lookup_word_inflections st3 "driven" "English" = none
    ∧ find_word_inflections st3 "driven" "English" = none
    ∧ word_lemmas st3 "English" (fun _ => true) ["Verb"] "driven" = ["drive"] := by
  refine ⟨by decide, by decide, ?_⟩
  have h := c3_lemma_cascade st3 "English" (fun _ => true) ["Verb"] "driven"
    [("Verb", Content.pairs
      [("driven (comparative more driven, superlative most driven)", none),
       ("past participle of drive", some "drive")])]
    (by decide) (by decide) (by decide) (by decide)
  rw [h]
  decide

/-! ### Grid lemmas: inserts and span rectangles only add coordinates -/

theorem gridInsert_self (g : Grid) (k : Coord) (v : Cell) :
    gridFind (gridInsert g k v) k = some v := alookup_aset_self _ _ _

theorem gridInsert_isSome (g : Grid) (k k' : Coord) (v : Cell)
    (h : (gridFind g k').isSome) : (gridFind (gridInsert g k v) k').isSome := by
  by_cases hk : k' = k
  · subst hk
    rw [gridInsert_self]
    rfl
  · show (alookup (aset g k v) k').isSome
    rw [alookup_aset_ne _ _ _ _ hk]
    exact h

theorem writeRow_isSome (g : Grid) (cell : Cell) (r c n : Nat) (k : Coord)
    (h : (gridFind g k).isSome) : (gridFind (writeRow g cell r c n) k).isSome := by
  induction n with
  | zero => exact h
  | succ m ih => exact gridInsert_isSome _ _ _ _ ih

theorem writeRow_hit (g : Grid) (cell : Cell) (r c n j : Nat) (hj : j < n) :
    (gridFind (writeRow g cell r c n) (r, c + j)).isSome := by
  induction n with
  | zero => cases hj
  | succ m ih =>
      rcases Nat.lt_succ_iff_lt_or_eq.mp hj with h | rfl
      · exact gridInsert_isSome _ _ _ _ (ih h)
      · rw [writeRow, gridInsert_self]
        rfl

theorem writeRect_isSome (g : Grid) (cell : Cell) (r c rs cs : Nat) (k : Coord)
    (h : (gridFind g k).isSome) : (gridFind (writeRect g cell r c rs cs) k).isSome := by
  induction rs with
  | zero => exact h
  | succ m ih =>
      rw [writeRect]
      exact writeRow_isSome _ _ _ _ _ _ ih

theorem writeRect_hit (g : Grid) (cell : Cell) (r c rs cs i j : Nat)
    (hi : i < rs) (hj : j < cs) :
    (gridFind (writeRect g cell r c rs cs) (r + i, c + j)).isSome := by
  induction rs with
  | zero => cases hi
  | succ m ih =>
      rcases Nat.lt_succ_iff_lt_or_eq.mp hi with h | rfl
      · rw [writeRect]
        exact writeRow_isSome _ _ _ _ _ _ (ih h)
      · rw [writeRect]
        exact writeRow_hit _ _ _ _ _ _ hj

/-! ### `rowLoop` / `outerLoop` invariants -/

/-- The grid only gains coordinates as a row is processed. -/
theorem rowLoop_mono (nR : Nat) :
    ∀ (r : Nat) (rowIter colIter : List Nat) (cells : List Cell) (ncols : Nat)
      (dict : Grid) (log : List Placement) (k : Coord),
      (gridFind dict k).isSome →
      (gridFind (rowLoop nR r rowIter colIter cells ncols dict log).grid k).isSome := by
  refine rowLoop.induct nR
    (fun r rowIter colIter cells ncols dict log =>
      ∀ k, (gridFind dict k).isSome →
        (gridFind (rowLoop nR r rowIter colIter cells ncols dict log).grid k).isSome)
    ?_ ?_ ?_ ?_ ?_ ?_
  · intro r rowIter cells ncols dict log k hk
    rw [rowLoop]
    exact hk
  · intro r rowIter ncols dict log head rest ih k hk
    rw [rowLoop]
    exact ih k hk
  · intro r rowIter ncols dict log head rest c2 rest1
    dsimp only
    intro hemp ih k hk
    rw [rowLoop]
    dsimp only
    rw [if_pos hemp]
    exact ih k hk
  · intro r rowIter ncols dict log head rest c2 rest1
    dsimp only
    intro hemp hfree hspan ih
    simp only [dite_eq_ite] at hfree ih
    intro k hk
    rw [rowLoop]
    dsimp only
    rw [if_neg hemp, if_pos hfree, if_pos hspan]
    exact ih k (writeRect_isSome _ _ _ _ _ _ _ hk)
  · intro r rowIter ncols dict log head rest c2 rest1
    dsimp only
    intro hemp hfree hspan ih
    simp only [dite_eq_ite] at hfree ih
    intro k hk
    rw [rowLoop]
    dsimp only
    rw [if_neg hemp, if_pos hfree, if_neg hspan]
    exact ih k (gridInsert_isSome _ _ _ _ hk)
  · intro r rowIter ncols dict log head rest c2 rest1
    dsimp only
    intro hemp hfree
    simp only [dite_eq_ite] at hfree
    intro k hk
    rw [rowLoop]
    dsimp only
    rw [if_neg hemp, if_neg hfree]
    exact hk

/-- Every placement already logged keeps its replication rectangle fully
populated, and every placement the row adds populates its own rectangle. -/
theorem rowLoop_rects (nR : Nat) :
    ∀ (r : Nat) (rowIter colIter : List Nat) (cells : List Cell) (ncols : Nat)
      (dict : Grid) (log : List Placement),
      (∀ p ∈ log, ∀ i < p.rs, ∀ j < p.cs, (gridFind dict (p.r + i, p.c + j)).isSome) →
      ∀ p ∈ (rowLoop nR r rowIter colIter cells ncols dict log).log,
        ∀ i < p.rs, ∀ j < p.cs,
          (gridFind (rowLoop nR r rowIter colIter cells ncols dict log).grid
            (p.r + i, p.c + j)).isSome := by
  refine rowLoop.induct nR
    (fun r rowIter colIter cells ncols dict log =>
      (∀ p ∈ log, ∀ i < p.rs, ∀ j < p.cs, (gridFind dict (p.r + i, p.c + j)).isSome) →
      ∀ p ∈ (rowLoop nR r rowIter colIter cells ncols dict log).log,
        ∀ i < p.rs, ∀ j < p.cs,
          (gridFind (rowLoop nR r rowIter colIter cells ncols dict log).grid
            (p.r + i, p.c + j)).isSome)
    ?_ ?_ ?_ ?_ ?_ ?_
  · intro r rowIter cells ncols dict log hlog
    rw [rowLoop]
    exact hlog
  · intro r rowIter ncols dict log head rest ih hlog
    rw [rowLoop]
    exact ih hlog
  · intro r rowIter ncols dict log head rest c2 rest1
    dsimp only
    intro hemp ih hlog
    rw [rowLoop]
    dsimp only
    rw [if_pos hemp]
    exact ih hlog
  · intro r rowIter ncols dict log head rest c2 rest1
    dsimp only
    intro hemp hfree hspan ih
    simp only [dite_eq_ite] at hfree ih
    intro hlog
    rw [rowLoop]
    dsimp only
    rw [if_neg hemp, if_pos hfree, if_pos hspan]
    refine ih ?_
    intro p hp i hi j hj
    rcases List.mem_append.mp hp with hold | hnew
    · exact writeRect_isSome _ _ _ _ _ _ _ (hlog p hold i hi j hj)
    · rw [List.mem_singleton.mp hnew] at hi hj ⊢
      exact writeRect_hit _ _ _ _ _ _ _ _ hi hj
  · intro r rowIter ncols dict log head rest c2 rest1
    dsimp only
    intro hemp hfree hspan ih
    simp only [dite_eq_ite] at hfree ih
    intro hlog
    rw [rowLoop]
    dsimp only
    rw [if_neg hemp, if_pos hfree, if_neg hspan]
    refine ih ?_
    intro p hp i hi j hj
    rcases List.mem_append.mp hp with hold | hnew
    · exact gridInsert_isSome _ _ _ _ (hlog p hold i hi j hj)
    · have hcs : cell_colspan (skipEmpty nR c2 rest1).1 ⊓ ncols = 1
          ∧ cell_rowspan (skipEmpty nR c2 rest1).1 ⊓ nR = 1 := by
        rcases not_or.mp hspan with ⟨h1, h2⟩
        exact ⟨not_not.mp h1, not_not.mp h2⟩
      rw [List.mem_singleton.mp hnew] at hi hj ⊢
      simp only at hi hj ⊢
      rw [hcs.2] at hi
      rw [hcs.1] at hj
      interval_cases i
      interval_cases j
      simp only [Nat.add_zero]
      rw [gridInsert_self]
      rfl
  · intro r rowIter ncols dict log head rest c2 rest1
    dsimp only
    intro hemp hfree
    simp only [dite_eq_ite] at hfree
    intro hlog
    rw [rowLoop]
    dsimp only
    rw [if_neg hemp, if_neg hfree]
    exact hlog

theorem outerLoop_mono (t : Table) :
    ∀ (rowIter : List Nat) (ncols : Nat) (dict : Grid) (log : List Placement) (k : Coord),
      (gridFind dict k).isSome → (gridFind (outerLoop t rowIter ncols dict log).1 k).isSome := by
  refine outerLoop.induct t
    (fun rowIter ncols dict log =>
      ∀ k, (gridFind dict k).isSome → (gridFind (outerLoop t rowIter ncols dict log).1 k).isSome)
    ?_ ?_
  · intro ncols dict log k hk
    rw [outerLoop]
    exact hk
  · intro ncols dict log head rest out ih k hk
    rw [outerLoop]
    exact ih k (rowLoop_mono _ _ _ _ _ _ _ _ k hk)

theorem outerLoop_rects (t : Table) :
    ∀ (rowIter : List Nat) (ncols : Nat) (dict : Grid) (log : List Placement),
      (∀ p ∈ log, ∀ i < p.rs, ∀ j < p.cs, (gridFind dict (p.r + i, p.c + j)).isSome) →
      ∀ p ∈ (outerLoop t rowIter ncols dict log).2,
        ∀ i < p.rs, ∀ j < p.cs,
          (gridFind (outerLoop t rowIter ncols dict log).1 (p.r + i, p.c + j)).isSome := by
  refine outerLoop.induct t
    (fun rowIter ncols dict log =>
      (∀ p ∈ log, ∀ i < p.rs, ∀ j < p.cs, (gridFind dict (p.r + i, p.c + j)).isSome) →
      ∀ p ∈ (outerLoop t rowIter ncols dict log).2,
        ∀ i < p.rs, ∀ j < p.cs,
          (gridFind (outerLoop t rowIter ncols dict log).1 (p.r + i, p.c + j)).isSome)
    ?_ ?_
  · intro ncols dict log hlog
    rw [outerLoop]
    exact hlog
  · intro ncols dict log head rest out ih hlog
    rw [outerLoop]
    exact ih (rowLoop_rects _ _ _ _ _ _ _ _ hlog)

/-- Log well-formedness: each placement records `min(rowspan, num_rows)`,
`min(colspan, effective num_cols)`, and an effective column count that
never exceeds the initial one. -/
theorem rowLoop_logQ (nR N : Nat) :
    ∀ (r : Nat) (rowIter colIter : List Nat) (cells : List Cell) (ncols : Nat)
      (dict : Grid) (log : List Placement),
      ncols ≤ N →
      (∀ p ∈ log, p.rs = min (cell_rowspan p.cell) nR
        ∧ p.cs = min (cell_colspan p.cell) p.ncols ∧ p.ncols ≤ N) →
      (rowLoop nR r rowIter colIter cells ncols dict log).ncols ≤ N
      ∧ ∀ p ∈ (rowLoop nR r rowIter colIter cells ncols dict log).log,
          p.rs = min (cell_rowspan p.cell) nR
          ∧ p.cs = min (cell_colspan p.cell) p.ncols ∧ p.ncols ≤ N := by
  refine rowLoop.induct nR
    (fun r rowIter colIter cells ncols dict log =>
      ncols ≤ N →
      (∀ p ∈ log, p.rs = min (cell_rowspan p.cell) nR
        ∧ p.cs = min (cell_colspan p.cell) p.ncols ∧ p.ncols ≤ N) →
      (rowLoop nR r rowIter colIter cells ncols dict log).ncols ≤ N
      ∧ ∀ p ∈ (rowLoop nR r rowIter colIter cells ncols dict log).log,
          p.rs = min (cell_rowspan p.cell) nR
          ∧ p.cs = min (cell_colspan p.cell) p.ncols ∧ p.ncols ≤ N)
    ?_ ?_ ?_ ?_ ?_ ?_
  · intro r rowIter cells ncols dict log hn hlog
    rw [rowLoop]
    exact ⟨hn, hlog⟩
  · intro r rowIter ncols dict log head rest ih hn hlog
    rw [rowLoop]
    exact ih hn hlog
  · intro r rowIter ncols dict log head rest c2 rest1
    dsimp only
    intro hemp ih hn hlog
    rw [rowLoop]
    dsimp only
    rw [if_pos hemp]
    exact ih (Nat.le_trans (Nat.sub_le _ _) hn) hlog
  · intro r rowIter ncols dict log head rest c2 rest1
    dsimp only
    intro hemp hfree hspan ih
    simp only [dite_eq_ite] at hfree ih
    intro hn hlog
    rw [rowLoop]
    dsimp only
    rw [if_neg hemp, if_pos hfree, if_pos hspan]
    refine ih hn ?_
    intro p hp
    rcases List.mem_append.mp hp with hold | hnew
    · exact hlog p hold
    · rw [List.mem_singleton.mp hnew]
      exact ⟨rfl, rfl, hn⟩
  · intro r rowIter ncols dict log head rest c2 rest1
    dsimp only
    intro hemp hfree hspan ih
    simp only [dite_eq_ite] at hfree ih
    intro hn hlog
    rw [rowLoop]
    dsimp only
    rw [if_neg hemp, if_pos hfree, if_neg hspan]
    refine ih hn ?_
    intro p hp
    rcases List.mem_append.mp hp with hold | hnew
    · exact hlog p hold
    · rw [List.mem_singleton.mp hnew]
      exact ⟨rfl, rfl, hn⟩
  · intro r rowIter ncols dict log head rest c2 rest1
    dsimp only
    intro hemp hfree
    simp only [dite_eq_ite] at hfree
    intro hn hlog
    rw [rowLoop]
    dsimp only
    rw [if_neg hemp, if_neg hfree]
    exact ⟨hn, hlog⟩

theorem outerLoop_logQ (t : Table) (N : Nat) :
    ∀ (rowIter : List Nat) (ncols : Nat) (dict : Grid) (log : List Placement),
      ncols ≤ N →
      (∀ p ∈ log, p.rs = min (cell_rowspan p.cell) (num_rows t)
        ∧ p.cs = min (cell_colspan p.cell) p.ncols ∧ p.ncols ≤ N) →
      ∀ p ∈ (outerLoop t rowIter ncols dict log).2,
        p.rs = min (cell_rowspan p.cell) (num_rows t)
        ∧ p.cs = min (cell_colspan p.cell) p.ncols ∧ p.ncols ≤ N := by
  refine outerLoop.induct t
    (fun rowIter ncols dict log =>
      ncols ≤ N →
      (∀ p ∈ log, p.rs = min (cell_rowspan p.cell) (num_rows t)
        ∧ p.cs = min (cell_colspan p.cell) p.ncols ∧ p.ncols ≤ N) →
      ∀ p ∈ (outerLoop t rowIter ncols dict log).2,
        p.rs = min (cell_rowspan p.cell) (num_rows t)
        ∧ p.cs = min (cell_colspan p.cell) p.ncols ∧ p.ncols ≤ N)
    ?_ ?_
  · intro ncols dict log hn hlog
    rw [outerLoop]
    exact hlog
  · intro ncols dict log head rest out ih hn hlog
    rw [outerLoop]
    have h := rowLoop_logQ (num_rows t) N head rest (List.range ncols)
      (t.rows.getD head []) ncols dict log hn hlog
    exact ih h.1 h.2

/-! Unfolding equations for `awmLoop`, phrased so that the accumulator and
frontier can be replaced by definitionally computed normal forms (the
membership proofs are propositions, so any two are interchangeable). -/

theorem awmLoop_congr (s : Store (List String)) (lang : String) (U : List String)
    (hU : ∀ w x, x ∈ (word_morphemes s lang w).getD [] → x ∈ U)
    (m m' todo todo' : List String)
    (htodo : ∀ w ∈ todo, w ∈ U) (htodo' : ∀ w ∈ todo', w ∈ U)
    (hm : m = m') (ht : todo = todo') :
    awmLoop s lang U hU m todo htodo = awmLoop s lang U hU m' todo' htodo' := by
  subst hm
  subst ht
  rfl

theorem awmLoop_nil (s : Store (List String)) (lang : String) (U : List String)
    (hU : ∀ w x, x ∈ (word_morphemes s lang w).getD [] → x ∈ U)
    (m : List String) (htodo : ∀ w ∈ ([] : List String), w ∈ U) :
    awmLoop s lang U hU m [] htodo = m := by
  rw [awmLoop]

theorem awmLoop_step_some (s : Store (List String)) (lang : String) (U : List String)
    (hU : ∀ w x, x ∈ (word_morphemes s lang w).getD [] → x ∈ U)
    (m : List String) (curr : String) (rest : List String)
    (htodo : ∀ w ∈ curr :: rest, w ∈ U) (wm m' todo' : List String)
    (htodo' : ∀ w ∈ todo', w ∈ U)
    (hc : curr ≠ "" ∧ curr ∉ m ∧ contains_punct curr = false)
    (hw : word_morphemes s lang curr = some wm)
    (hm : osUpdate (osAdd m curr) wm = m') (ht : rest ++ wm = todo') :
    awmLoop s lang U hU m (curr :: rest) htodo = awmLoop s lang U hU m' todo' htodo' := by
  rw [awmLoop, dif_pos hc, if_pos (show (word_morphemes s lang curr).isSome = true from by
    rw [hw]; rfl)]
  exact awmLoop_congr s lang U hU _ _ _ _ _ htodo'
    (by rw [hw, Option.getD_some, hm]) (by rw [hw, Option.getD_some, ht])

theorem awmLoop_step_skip (s : Store (List String)) (lang : String) (U : List String)
    (hU : ∀ w x, x ∈ (word_morphemes s lang w).getD [] → x ∈ U)
    (m : List String) (curr : String) (rest : List String)
    (htodo : ∀ w ∈ curr :: rest, w ∈ U)
    (htodo' : ∀ w ∈ rest, w ∈ U)
    (hc : ¬ (curr ≠ "" ∧ curr ∉ m ∧ contains_punct curr = false)) :
    awmLoop s lang U hU m (curr :: rest) htodo = awmLoop s lang U hU m rest htodo' := by
  rw [awmLoop, dif_neg hc]

/-- C4: morpheme decomposition terminates on every finite stored etymology
relation — witnessed by `all_word_morphemes` being a total function, its
recursion justified by the strictly growing visited set inside the finite
token universe — and on the two-word cycle A→B→A it terminates and
returns exactly {A, B} (the list ["A", "B"]): the cycle closes at the
visited-set membership check. -/
theorem c4_morpheme_cycle : all_word_morphemes st4 "L" "A" = ["A", "B"] := by
  unfold all_word_morphemes
  rw [awmLoop_step_some _ _ _ _ _ _ _ _ ["B"] ["A", "B"] ["B"] (by decide)
    (by decide) (by decide) (by decide) (by decide)]
  rw [awmLoop_step_skip _ _ _ _ _ _ _ _ (by decide) (by decide)]
  rw [awmLoop_nil]

/-! ### C1 / C6 / C7: grid reconstruction on the concrete tables -/

set_option maxHeartbeats 2000000 in
theorem ex1_grid :
    parse_table ex1 = [((0, 0), cellX), ((0, 1), cellA), ((1, 1), cellB), ((1, 0), cellB),
      ((2, 0), cellC), ((2, 1), cellD)] := by
  simp [parse_table, outerLoop, rowLoop, advCols, advRows, skipEmpty, writeRect, writeRow,
    gridInsert, gridFind, alookup, aset, is_col_empty, cell_rowspan, cell_colspan,
    num_rows, count_cols, ex1, cellX, cellA, cellB, cellC, cellD, tdCell,
    List.range_succ, Prod.mk.injEq, -Prod.mk_zero_zero, -Prod.mk_one_one]

set_option maxHeartbeats 2000000 in
theorem ex1_log :
    parse_table_log ex1 = [⟨cellX, 0, 0, 1, 1, 2⟩, ⟨cellA, 0, 1, 2, 1, 2⟩,
      ⟨cellB, 1, 0, 1, 2, 2⟩, ⟨cellC, 2, 0, 1, 1, 2⟩, ⟨cellD, 2, 1, 1, 1, 2⟩] := by
  simp [parse_table_log, outerLoop, rowLoop, advCols, advRows, skipEmpty, writeRect, writeRow,
    gridInsert, gridFind, alookup, aset, is_col_empty, cell_rowspan, cell_colspan,
    num_rows, count_cols, ex1, cellX, cellA, cellB, cellC, cellD, tdCell,
    List.range_succ, Prod.mk.injEq, -Prod.mk_zero_zero, -Prod.mk_one_one]

/-- C1 as stated is false: in table `ex1`, cell A is placed at origin
(0, 1) with effective row-span 2 and col-span 1, yet in the final
reconstructed grid the rectangle coordinate (0+1, 1+0) holds cell B — the
later two-column span of row 1 overwrote A's entry — so not all R×C
entries reference the placed cell. -/
theorem c1_span_replication_cx :
    Placement.mk cellA 0 1 2 1 2 ∈ parse_table_log ex1
    ∧ 1 < 2 ∧ 0 < 1
    ∧ gridFind (parse_table ex1) (0 + 1, 1 + 0) = some cellB
    ∧ ¬ gridFind (parse_table ex1) (0 + 1, 1 + 0) = some cellA := by
  rw [ex1_grid, ex1_log]
  exact ⟨by decide, by decide, by decide, by decide, by decide⟩

/-- C1 (amended): every cell placed by `parse_table` at origin (r, c) with
effective row-span R and col-span C yields an entry at every coordinate
(r+i, c+j), 0 ≤ i < R, 0 ≤ j < C, in the final grid — the placement
writes the full rectangle and entries are never removed — but the entries
need not all still reference that cell, because a later overlapping span
may overwrite individual coordinates. -/
theorem c1_span_replication (t : Table) (p : Placement) (hp : p ∈ parse_table_log t)
    (i j : Nat) (hi : i < p.rs) (hj : j < p.cs) :
    (gridFind (parse_table t) (p.r + i, p.c + j)).isSome :=
  outerLoop_rects t (List.range (num_rows t)) (count_cols t) [] []
    (fun q hq => absurd hq (List.not_mem_nil q)) p hp i hi j hj

theorem c1_span_replication_witness :
    Placement.mk cellA 0 1 2 1 2 ∈ parse_table_log ex1
    ∧ (gridFind (parse_table ex1) (0 + 1, 1 + 0)).isSome := by
  have hmem : Placement.mk cellA 0 1 2 1 2 ∈ parse_table_log ex1 := by
    rw [ex1_log]
    decide
  exact ⟨hmem, c1_span_replication ex1 (Placement.mk cellA 0 1 2 1 2) hmem 1 0
    (by decide) (by decide)⟩

set_option maxHeartbeats 2000000 in
theorem ex6_grid :
    parse_table ex6 = [((0, 0), tdCell 11 "x"), ((0, 1), tdCell 12 "y"), ((1, 0), cellZ),
      ((2, 0), cellZ), ((3, 0), cellZ), ((2, 1), tdCell 14 "w")] := by
  simp [parse_table, outerLoop, rowLoop, advCols, advRows, skipEmpty, writeRect, writeRow,
    gridInsert, gridFind, alookup, aset, is_col_empty, cell_rowspan, cell_colspan,
    num_rows, count_cols, ex6, cellZ, tdCell,
    List.range_succ, Prod.mk.injEq, -Prod.mk_zero_zero, -Prod.mk_one_one]

set_option maxHeartbeats 2000000 in
theorem ex6_log :
    parse_table_log ex6 = [⟨tdCell 11 "x", 0, 0, 1, 1, 2⟩, ⟨tdCell 12 "y", 0, 1, 1, 1, 2⟩,
      ⟨cellZ, 1, 0, 3, 1, 2⟩, ⟨tdCell 14 "w", 2, 1, 1, 1, 2⟩] := by
  simp [parse_table_log, outerLoop, rowLoop, advCols, advRows, skipEmpty, writeRect, writeRow,
    gridInsert, gridFind, alookup, aset, is_col_empty, cell_rowspan, cell_colspan,
    num_rows, count_cols, ex6, cellZ, tdCell,
    List.range_succ, Prod.mk.injEq, -Prod.mk_zero_zero, -Prod.mk_one_one]

/-- C6 as stated is false: in the 3-row table `ex6`, cell Z at (1, 0)
reports rowspan 5; only 2 rows remain below row 1, yet the effective
row-span is `min(5, num_rows) = 3`, not the remaining height — the
replication even populates coordinate (3, 0), past the grid's last row. -/
theorem c6_span_clamping_cx :
    Placement.mk cellZ 1 0 3 1 2 ∈ parse_table_log ex6
    ∧ num_rows ex6 - 1 < 3
    ∧ gridFind (parse_table ex6) (3, 0) = some cellZ := by
  rw [ex6_log, ex6_grid]
  exact ⟨by decide, by decide, by decide⟩

/-- C6 (amended): during grid reconstruction a cell's row-span is clamped
to the table's TOTAL row count and its col-span to the CURRENT effective
column count (which never exceeds the initial column count) — not to the
rows/columns remaining below/right of the placement coordinate — and the
malformed span is never surfaced as an error (reconstruction is a total
function). -/
theorem c6_span_clamping (t : Table) (p : Placement) (hp : p ∈ parse_table_log t) :
    p.rs = min (cell_rowspan p.cell) (num_rows t)
    ∧ p.cs = min (cell_colspan p.cell) p.ncols
    ∧ p.ncols ≤ count_cols t :=
  outerLoop_logQ t (count_cols t) (List.range (num_rows t)) (count_cols t) [] []
    (Nat.le_refl _) (fun q hq => absurd hq (List.not_mem_nil q)) p hp

theorem c6_span_clamping_witness :
    Placement.mk cellZ 1 0 3 1 2 ∈ parse_table_log ex6
    ∧ 3 = min (cell_rowspan cellZ) (num_rows ex6)
    ∧ 1 = min (cell_colspan cellZ) 2
    ∧ 2 ≤ count_cols ex6 := by
  have hmem : Placement.mk cellZ 1 0 3 1 2 ∈ parse_table_log ex6 := by
    rw [ex6_log]
    decide
  have h := c6_span_clamping ex6 (Placement.mk cellZ 1 0 3 1 2) hmem
  exact ⟨hmem, h.1, h.2.1, h.2.2⟩

set_option maxHeartbeats 2000000 in
theorem ex7_grid : parse_table ex7 = [((0, 0), cellG), ((1, 0), cellH)] := by
  simp [parse_table, outerLoop, rowLoop, advCols, advRows, skipEmpty, writeRect, writeRow,
    gridInsert, gridFind, alookup, aset, is_col_empty, cell_rowspan, cell_colspan,
    num_rows, count_cols, ex7, cellF, cellG, cellH, tdCell,
    List.range_succ, Prod.mk.injEq, -Prod.mk_zero_zero, -Prod.mk_one_one]

set_option maxHeartbeats 2000000 in
theorem ex7_log :
    parse_table_log ex7 = [⟨cellG, 0, 0, 1, 1, 2⟩, ⟨cellH, 1, 0, 1, 1, 2⟩] := by
  simp [parse_table_log, outerLoop, rowLoop, advCols, advRows, skipEmpty, writeRect, writeRow,
    gridInsert, gridFind, alookup, aset, is_col_empty, cell_rowspan, cell_colspan,
    num_rows, count_cols, ex7, cellF, cellG, cellH, tdCell,
    List.range_succ, Prod.mk.injEq, -Prod.mk_zero_zero, -Prod.mk_one_one]

/-- C7: the claim is right and the code is wrong.  `is_col_empty` tests
`col.get("text") is None` — the "text" HTML ATTRIBUTE, which ordinary
table cells never carry — instead of the cell's textual content, in
contradiction with its own docstring ("Returns True if this HTML column is
empty and takes up a whole row").  In table `ex7`, the full-height cell F
carries the text "kot" and a link into the language, yet it is classified
as an empty decorative column and skipped: it appears nowhere in the
reconstructed grid and is never placed. -/
theorem c7_decorative_skip_bug :
    is_col_empty (num_rows ex7) cellF = true
    ∧ cell_text "Polish" cellF = "kot"
    ∧ contains_content "Polish" cellF = true
    ∧ parse_table ex7 = [((0, 0), cellG), ((1, 0), cellH)]
    ∧ ∀ p ∈ parse_table_log ex7, ¬ p.cell = cellF := by
  refine ⟨by decide, by decide, by decide, ex7_grid, ?_⟩
  rw [ex7_log]
  decide

/-! ### C9: the row-path threshold -/

set_option maxHeartbeats 2000000 in
theorem ex9_grid :
    parse_table ex9 = [((0, 0), cellH9), ((1, 0), cellH9), ((2, 0), cellH9),
      ((0, 1), tdCell 32 "kot"), ((1, 1), tdCell 33 "kota"), ((2, 1), tdCell 34 "kotu")] := by
  simp [parse_table, outerLoop, rowLoop, advCols, advRows, skipEmpty, writeRect, writeRow,
    gridInsert, gridFind, alookup, aset, is_col_empty, cell_rowspan, cell_colspan,
    num_rows, count_cols, ex9, cellH9, tdCell,
    List.range_succ, Prod.mk.injEq, -Prod.mk_zero_zero, -Prod.mk_one_one]

/-- A fold of `specRowStep` that has already stopped never changes the
collected path again. -/
theorem specRowStep_stopped (lang : String) (nR : Nat) :
    ∀ (l : List Cell) (path : List String) (run : Bool),
      (l.foldl (specRowStep lang nR) (path, run, true)).1 = path := by
  intro l
  induction l with
  | nil => intro path run; rfl
  | cons cell rest ih =>
      intro path run
      rw [List.foldl_cons, show specRowStep lang nR (path, run, true) cell = (path, run, true)
        from rfl]
      exact ih path run

/-- The source's scanning loop computes exactly the claim's fold, for any
common row-span threshold. -/
theorem cellRowsGo_spec (lang : String) (nR : Nat) :
    ∀ (L : List (Coord × Cell)) (rows : List String) (run : Bool),
      cellRowsGo lang nR L rows run
        = ((L.map (fun p => p.2)).foldl (specRowStep lang nR) (rows, run, false)).1 := by
  intro L
  induction L with
  | nil => intro rows run; rfl
  | cons p rest ih =>
      intro rows run
      obtain ⟨k, cell⟩ := p
      by_cases hh : is_header lang cell
      · by_cases hA : cell_rowspan cell ≤ nR ∧ (cell_text lang cell).length ≠ 0
        · by_cases hm : cell_text lang cell ∈ rows
          · simp [cellRowsGo, specRowStep, hh, hA, hm, ih]
          · simp [cellRowsGo, specRowStep, hh, hA, hm, ih]
        · simp [cellRowsGo, specRowStep, hh, hA, ih]
      · cases run with
        | false => simp [cellRowsGo, specRowStep, hh, ih]
        | true => simp [cellRowsGo, specRowStep, hh, specRowStep_stopped]

/-- C9 as stated is false on the threshold: `cell_rows` compares row-spans
against `sorted(table_dict)[-1][0]` — the grid's largest row INDEX, one
less than its row count.  In table `ex9`'s grid the header H9 (row-span 3,
text "masculine") sits left of (1, 1) in a 3-row grid; the claim's
algorithm (threshold = row count 3) collects it, but `cell_rows` rejects
it (3 > 2) and returns the empty path. -/
theorem c9_row_path_cx :
    cell_rows "L" (1, 1) (parse_table ex9) = []
    ∧ cellRowsSpec "L" (num_rows ex9) (1, 1) (parse_table ex9) = ["masculine"]
    ∧ is_header "L" cellH9 = true
    ∧ cell_rowspan cellH9 ≤ num_rows ex9 := by
  rw [ex9_grid]
  exact ⟨by decide, by decide, by decide, by decide⟩

/-- C9 (amended): for every coordinate of a grid, `cell_rows` computes
exactly the claim's algorithm — scan the same-row smaller-column cells in
descending column order, collect a header's text when its row-span does
not exceed the threshold, its cleaned text is non-empty and not already
collected, inserting at the front, and stop at the first non-header after
a collection — but with the row-span threshold being the grid's largest
ROW INDEX (`sorted(table_dict)[-1][0]`), not its row count. -/
theorem c9_row_path (lang : String) (coord : Coord) (dict : Grid) :
    cell_rows lang coord dict = cellRowsSpec lang (codeNRind dict) coord dict := by
  unfold cell_rows cellRowsSpec
  exact cellRowsGo_spec lang (codeNRind dict) _ [] false

/-! ### C5: what the declension records -/

set_option maxHeartbeats 2000000 in
theorem ex5_grid :
    parse_table ex5 = [((0, 0), exH1), ((0, 1), exH2), ((1, 0), exT),
      ((1, 1), thCell 44 "u"), ((2, 0), thCell 45 "v"), ((2, 1), thCell 46 "w")] := by
  simp [parse_table, outerLoop, rowLoop, advCols, advRows, skipEmpty, writeRect, writeRow,
    gridInsert, gridFind, alookup, aset, is_col_empty, cell_rowspan, cell_colspan,
    num_rows, count_cols, ex5, exH1, exH2, exT, thCell, tdCell,
    List.range_succ, Prod.mk.injEq, -Prod.mk_zero_zero, -Prod.mk_one_one]

/-- Looking up any pair in a declension after recording (CT, RT) ↦ v
either hits the freshly recorded value or falls through to the old
declension. -/
theorem declInsert_lookup (decl : Decl) (CT RT : String) (v : List String)
    (colT rowT : String) (forms : List String)
    (hlk : declLookup (aset decl CT (aset ((alookup decl CT).getD []) RT v)) colT rowT
      = some forms) :
    (colT = CT ∧ rowT = RT ∧ forms = v) ∨ declLookup decl colT rowT = some forms := by
  by_cases hc : colT = CT
  · subst hc
    unfold declLookup at hlk ⊢
    rw [alookup_aset_self] at hlk
    have hlk2 : alookup (aset ((alookup decl colT).getD []) RT v) rowT = some forms := hlk
    by_cases hr : rowT = RT
    · subst hr
      rw [alookup_aset_self] at hlk2
      injection hlk2 with hv
      exact Or.inl ⟨rfl, rfl, hv.symm⟩
    · rw [alookup_aset_ne _ _ _ _ hr] at hlk2
      cases hm : alookup decl colT with
      | none =>
          rw [hm] at hlk2
          simp [alookup] at hlk2
      | some m =>
          rw [hm] at hlk2
          exact Or.inr hlk2
  · refine Or.inr ?_
    unfold declLookup at hlk ⊢
    rw [alookup_aset_ne _ _ _ _ hc] at hlk
    exact hlk

/-- One `parse_declension` iteration preserves the invariant: every
recorded pair has a non-empty column path, a non-empty forms list, and a
non-empty row path unless rows − cols = 1. -/
theorem declStep_pres (t : Table) (coords : Grid) (decl : Decl) (pr : Coord × Cell)
    (h : ∀ cT rT fs, declLookup decl cT rT = some fs →
      ¬ cT = "" ∧ ¬ fs = [] ∧
        (¬ rT = "" ∨ (num_rows t : Int) - (count_cols t : Int) = 1)) :
    ∀ cT rT fs, declLookup (declStep t coords decl pr) cT rT = some fs →
      ¬ cT = "" ∧ ¬ fs = [] ∧
        (¬ rT = "" ∨ (num_rows t : Int) - (count_cols t : Int) = 1) := by
  intro cT rT fs hlk
  simp only [declStep] at hlk
  split at hlk
  · split at hlk
    · split at hlk
      · rename_i hcont hguard hrow
        rcases declInsert_lookup decl _ _ _ cT rT fs hlk with ⟨hceq, hreq, hfeq⟩ | hold
        · subst hceq
          subst hreq
          subst hfeq
          refine ⟨?_, ?_, ?_⟩
          · intro he
            rw [he] at hguard
            exact absurd hguard.2 (by decide)
          · apply osItems_ne_nil
            intro hap
            rcases List.append_eq_nil.mp hap with ⟨-, hE⟩
            rw [hE] at hguard
            exact absurd hguard.1 (by decide)
          · rcases hrow with hl | hd
            · refine Or.inl ?_
              intro he
              rw [he] at hl
              exact absurd hl (by decide)
            · exact Or.inr hd
        · exact h _ _ _ hold
      · exact h _ _ _ hlk
    · exact h _ _ _ hlk
  · exact h _ _ _ hlk

/-- C5 as stated is false on the "non-empty word form" conjunct:
`parse_declension` only checks that the split yields at least one form —
possibly empty after stripping.  In table `ex5` the content cell's text is
","; its comma split yields two empty forms, yet the pair
("s", "") ↦ [""] is recorded, with no non-empty form in it. -/
theorem c5_declension_entry_cx :
    declLookup (parse_declension ex5) "s" "" = some [""]
    ∧ ∀ f ∈ ([""] : List String), f = "" := by
  refine ⟨?_, by decide⟩
  unfold parse_declension
  rw [ex5_grid]
  decide

/-- C5 (amended): a (column-path, row-path) pair is recorded by
`parse_declension` only if the column path is non-empty, the cell's
comma/slash/newline split yields at least one form — the forms list is
non-empty, but every form in it may be the empty string — and either the
row path is non-empty or the table's row count minus its column count
equals exactly 1. -/
theorem c5_declension_entry (t : Table) (colT rowT : String) (forms : List String)
    (h : declLookup (parse_declension t) colT rowT = some forms) :
    ¬ colT = "" ∧ ¬ forms = []
      ∧ (¬ rowT = "" ∨ (num_rows t : Int) - (count_cols t : Int) = 1) := by
  have hinv : ∀ (L : List (Coord × Cell)) (acc : Decl),
      (∀ cT rT fs, declLookup acc cT rT = some fs →
        ¬ cT = "" ∧ ¬ fs = [] ∧
          (¬ rT = "" ∨ (num_rows t : Int) - (count_cols t : Int) = 1)) →
      ∀ cT rT fs, declLookup (L.foldl (declStep t (parse_table t)) acc) cT rT = some fs →
        ¬ cT = "" ∧ ¬ fs = [] ∧
          (¬ rT = "" ∨ (num_rows t : Int) - (count_cols t : Int) = 1) := by
    intro L
    induction L with
    | nil => intro acc hacc; exact hacc
    | cons pr rest ih =>
        intro acc hacc
        simp only [List.foldl_cons]
        exact ih _ (declStep_pres t (parse_table t) acc pr hacc)
  exact hinv (sortedGrid (parse_table t)) []
    (fun cT rT fs habs => absurd habs (by simp [declLookup, alookup])) colT rowT forms h

theorem c5_declension_entry_witness :
    declLookup (parse_declension ex5) "s" "" = some [""]
    ∧ (¬ "s" = "" ∧ ¬ ([""] : List String) = []
      ∧ (¬ "" = "" ∨ (num_rows ex5 : Int) - (count_cols ex5 : Int) = 1)) := by
  have hl : declLookup (parse_declension ex5) "s" "" = some [""] := by
    unfold parse_declension
    rw [ex5_grid]
    decide
  exact ⟨hl, c5_declension_entry ex5 "s" "" [""] hl⟩

end Wikt
